import Mathlib

/-!
# go-confluent-kafka-proto: producer and consumer command-line programs

A shallow embedding of `producer/main.go` and `consumer/main.go`.

* The process environment is an association list; `os.Getenv` returns the empty
  string for a variable that is not set.
* A Go `map[string]string` literal is the list of its entries; a `range` loop over
  it visits the entries in an arbitrary order, i.e. in some permutation of that list.
* Each `main` is a function from the environment, the map iteration order and the
  answers of the outside world (broker, registry, library calls) to the trace of
  actions the program performs.
-/

namespace KafkaProto

/-! ## Environment -/

/-- The process environment as seen after `godotenv.Load()`. -/
abbrev Env := List (String × String)

/-- Go `os.Getenv`: the value of the variable, or `""` when it is not set. -/
def Getenv (env : Env) (key : String) : String :=
  (env.lookup key).getD ""

/-- Go `os.Setenv` on the association list: the new binding shadows older ones. -/
def Setenv (env : Env) (key value : String) : Env :=
  (key, value) :: env

/-- The validation loop shared by both programs,
`for key, value := range required { if value == "" { log.Fatalf(..., key) } }`,
run over the entries in the order the iteration yields them. `some key` is the
fatal exit naming `key`; `none` means the loop ran to completion. -/
def validate : List (String × String) → Option String
  | [] => none
  | (key, value) :: rest => if value = "" then some key else validate rest

/-! ## Message types generated from the protobuf schema -/

/-- Byte strings. -/
abbrev Bytes := List Nat

/-- The two message types of the schema, `User` and `Preferences`. -/
inductive MessageType
  | User
  | Preferences
  deriving DecidableEq, Repr

/-- Go struct `Preferences` with the fields the producer sets. -/
structure Preferences where
  Language : String
  DarkMode : Bool
  deriving DecidableEq, Repr

/-- An `anypb.Any` value: the type of the boxed message and its packed bytes. -/
structure AnyBox where
  typeName : MessageType
  value : Bytes
  deriving DecidableEq, Repr

/-- Go struct `User` with the fields the producer sets; `ExtraData` is a pointer
to an `anypb.Any` and may be nil. -/
structure User where
  Name : String
  FavoriteNumber : Int
  FavoriteColor : String
  ExtraData : Option AnyBox
  deriving DecidableEq, Repr

/-- A `kafka.Header`. -/
structure Header where
  Key : String
  Value : Bytes
  deriving DecidableEq, Repr

/-! ## Producer -/

/-- The seven variables `producer/main.go` reads, lines 23-29. -/
structure ProducerConfig where
  bootstrapServers : String
  topic : String
  kafkaAPIKey : String
  kafkaAPISecret : String
  srURL : String
  srAPIKey : String
  srAPISecret : String
  deriving DecidableEq, Repr

/-- Names passed to `os.Getenv` by the producer, in source order. -/
def producerReadNames : List String :=
  ["BOOTSTRAP_SERVERS", "TOPIC_NAME", "KAFKA_API_KEY", "KAFKA_API_SECRET",
   "SCHEMA_REGISTRY_URL", "SCHEMA_REGISTRY_API_KEY", "SCHEMA_REGISTRY_API_SECRET"]

/-- Lines 23-29 of `producer/main.go`. -/
def producerReadEnv (env : Env) : ProducerConfig :=
  { bootstrapServers := Getenv env "BOOTSTRAP_SERVERS"
    topic := Getenv env "TOPIC_NAME"
    kafkaAPIKey := Getenv env "KAFKA_API_KEY"
    kafkaAPISecret := Getenv env "KAFKA_API_SECRET"
    srURL := Getenv env "SCHEMA_REGISTRY_URL"
    srAPIKey := Getenv env "SCHEMA_REGISTRY_API_KEY"
    srAPISecret := Getenv env "SCHEMA_REGISTRY_API_SECRET" }

/-- The map literal `required` of `producer/main.go`, lines 32-40. -/
def producerRequired (c : ProducerConfig) : List (String × String) :=
  [("BOOTSTRAP_SERVERS", c.bootstrapServers),
   ("TOPIC_NAME", c.topic),
   ("KAFKA_API_KEY", c.kafkaAPIKey),
   ("KAFKA_API_SECRET", c.kafkaAPISecret),
   ("SCHEMA_REGISTRY_URL", c.srURL),
   ("SCHEMA_REGISTRY_API_KEY", c.srAPIKey),
   ("SCHEMA_REGISTRY_API_SECRET", c.srAPISecret)]

/-- What the producer does, one constructor per externally visible call. -/
inductive ProducerAction
  | fatalMissing (key : String)
  | newProducer (bootstrapServers username password : String)
  | fatalNewProducer
  | printCreated
  | newClient (url userInfo : String)
  | fatalNewClient
  | newSerializer
  | fatalNewSerializer
  | anyNew (prefs : Preferences)
  | fatalPacking
  | serialize (topic : String) (value : User)
  | fatalSerialize
  | produce (topic : String) (payload : Bytes) (headers : List Header)
  | fatalProduce
  | logDeliveryFailed
  | logDelivered
  | closeDeliveryChan
  deriving DecidableEq, Repr

/-- Answers of the library calls made by the producer. -/
structure ProducerWorld where
  newProducerErr : Bool
  newClientErr : Bool
  newSerializerErr : Bool
  marshal : Preferences → Option Bytes
  serialize : String → User → Option Bytes
  produceErr : Bool
  deliveryErr : Bool

/-- The message `prefs` of `producer/main.go`, lines 82-85. -/
def producerPrefs : Preferences :=
  { Language := "en", DarkMode := true }

/-- Library `anypb.New` applied to a `*Preferences`: the box carries the type of its
argument and the bytes `proto.Marshal` returned. -/
def anyNew (marshal : Preferences → Option Bytes) (p : Preferences) : Option AnyBox :=
  (marshal p).map fun b => { typeName := MessageType.Preferences, value := b }

/-- The message `value` of `producer/main.go`, lines 94-99. -/
def producerUser (extra : AnyBox) : User :=
  { Name := "First user", FavoriteNumber := 42, FavoriteColor := "blue",
    ExtraData := some extra }

/-- The header the producer attaches, line 111; the value is the text
`header values are binary` as bytes. -/
def producerHeaders : List Header :=
  [{ Key := "myTestHeader", Value := "header values are binary".data.map Char.toNat }]

/-- The function `main` of `producer/main.go` from line 22 on. `order` is the order in
which the `range` loop visits the entries of `required`. -/
def producerMain (env : Env) (order : List (String × String)) (w : ProducerWorld) :
    List ProducerAction :=
  let c := producerReadEnv env
  match validate order with
  | some key => [ProducerAction.fatalMissing key]
  | none =>
    ProducerAction.newProducer c.bootstrapServers c.kafkaAPIKey c.kafkaAPISecret ::
    if w.newProducerErr then [ProducerAction.fatalNewProducer] else
    ProducerAction.printCreated ::
    ProducerAction.newClient c.srURL (c.srAPIKey ++ ":" ++ c.srAPISecret) ::
    if w.newClientErr then [ProducerAction.fatalNewClient] else
    ProducerAction.newSerializer ::
    if w.newSerializerErr then [ProducerAction.fatalNewSerializer] else
    ProducerAction.anyNew producerPrefs ::
    match anyNew w.marshal producerPrefs with
    | none => [ProducerAction.fatalPacking]
    | some extra =>
      ProducerAction.serialize c.topic (producerUser extra) ::
      match w.serialize c.topic (producerUser extra) with
      | none => [ProducerAction.fatalSerialize]
      | some payload =>
        ProducerAction.produce c.topic payload producerHeaders ::
        if w.produceErr then [ProducerAction.fatalProduce] else
        (if w.deliveryErr then ProducerAction.logDeliveryFailed
          else ProducerAction.logDelivered) ::
        [ProducerAction.closeDeliveryChan]

/-! ## Consumer -/

/-- The nine variables `consumer/main.go` reads, lines 46-54. -/
structure ConsumerConfig where
  bootstrapServers : String
  topic_names : String
  kafkaAPIKey : String
  kafkaAPISecret : String
  srURL : String
  srAPIKey : String
  srAPISecret : String
  group : String
  auto_offset : String
  deriving DecidableEq, Repr

/-- Names passed to `os.Getenv` by the consumer, in source order. -/
def consumerReadNames : List String :=
  ["BOOTSTRAP_SERVERS", "TOPIC_NAMES", "KAFKA_API_KEY", "KAFKA_API_SECRET",
   "SCHEMA_REGISTRY_URL", "SCHEMA_REGISTRY_API_KEY", "SCHEMA_REGISTRY_API_SECRET",
   "CONSUMER_GROUP_ID", "CONSUMER_AUTO_OFFSET"]

/-- The eight variables whose values are placed in the consumer's `required` map. -/
def consumerRequiredNames : List String :=
  ["BOOTSTRAP_SERVERS", "TOPIC_NAMES", "KAFKA_API_KEY", "KAFKA_API_SECRET",
   "SCHEMA_REGISTRY_URL", "SCHEMA_REGISTRY_API_KEY", "SCHEMA_REGISTRY_API_SECRET",
   "CONSUMER_GROUP_ID"]

/-- Lines 46-54 of `consumer/main.go`. -/
def consumerReadEnv (env : Env) : ConsumerConfig :=
  { bootstrapServers := Getenv env "BOOTSTRAP_SERVERS"
    topic_names := Getenv env "TOPIC_NAMES"
    kafkaAPIKey := Getenv env "KAFKA_API_KEY"
    kafkaAPISecret := Getenv env "KAFKA_API_SECRET"
    srURL := Getenv env "SCHEMA_REGISTRY_URL"
    srAPIKey := Getenv env "SCHEMA_REGISTRY_API_KEY"
    srAPISecret := Getenv env "SCHEMA_REGISTRY_API_SECRET"
    group := Getenv env "CONSUMER_GROUP_ID"
    auto_offset := Getenv env "CONSUMER_AUTO_OFFSET" }

/-- The map literal `required` of `consumer/main.go`, lines 60-69. The second key is
spelled `TOPIC_NAME` in the source while its value comes from `TOPIC_NAMES`. -/
def consumerRequired (c : ConsumerConfig) : List (String × String) :=
  [("BOOTSTRAP_SERVERS", c.bootstrapServers),
   ("TOPIC_NAME", c.topic_names),
   ("KAFKA_API_KEY", c.kafkaAPIKey),
   ("KAFKA_API_SECRET", c.kafkaAPISecret),
   ("SCHEMA_REGISTRY_URL", c.srURL),
   ("SCHEMA_REGISTRY_API_KEY", c.srAPIKey),
   ("SCHEMA_REGISTRY_API_SECRET", c.srAPISecret),
   ("CONSUMER_GROUP_ID", c.group)]

/-! ### `strings.Split` and `strings.Join` of the Go standard library

Strings are taken as their character lists. The separator at the call site is the
one-byte string `","`, so `Count` and `Index` are specialised to a one-character
separator. -/

/-- Go `strings.Count(s, sep)` for a one-character `sep`. -/
def Count (s : List Char) (sep : Char) : Nat :=
  s.count sep

/-- Go `strings.Index(s, sep)` for a one-character `sep`; `none` stands for `-1`. -/
def Index : List Char → Char → Option Nat
  | [], _ => none
  | c :: cs, sep => if c = sep then some 0 else (Index cs sep).map (· + 1)

/-- The loop of Go `genSplit`: `n` iterations remain,
`m := Index(s, sep); if m < 0 { break }; a[i] = s[:m]; s = s[m+len(sep):]; i++`
and finally `a[i] = s`. -/
def genSplitLoop (sep : Char) : Nat → List Char → List (List Char)
  | 0, s => [s]
  | n + 1, s =>
    match Index s sep with
    | none => [s]
    | some m => s.take m :: genSplitLoop sep n (s.drop (m + 1))

/-- Go `genSplit(s, sep, 0, -1)`: `n = Count(s, sep) + 1`, clamped to `len(s) + 1`,
then `n - 1` iterations of the loop. -/
def genSplit (s : List Char) (sep : Char) : List (List Char) :=
  let n := Count s sep + 1
  let n := if n > s.length + 1 then s.length + 1 else n
  genSplitLoop sep (n - 1) s

/-- Go `strings.Split(s, sep)` for a one-character `sep`. -/
def Split (s : String) (sep : Char) : List String :=
  (genSplit s.data sep).map String.mk

/-- Go `strings.Join(elems, sep)`. -/
def Join : List String → String → String
  | [], _ => ""
  | [a], _ => a
  | a :: rest, sep => rest.foldl (fun b s => b ++ sep ++ s) a

/-! ### Events and actions -/

/-- A `kafka.TopicPartition` of a received message. -/
structure TopicPartition where
  Topic : String
  Partition : Int
  Offset : Int
  deriving DecidableEq, Repr

/-- A received `*kafka.Message`; `Headers` is a slice and may be nil. -/
structure Message where
  TopicPartition : TopicPartition
  Value : Bytes
  Key : Bytes
  Headers : Option (List Header)
  deriving DecidableEq, Repr

/-- What `c.Poll` may return besides nil. -/
inductive Event
  | message (e : Message)
  | error (code : Int) (text : String)
  | other (text : String)
  deriving DecidableEq, Repr

/-- One pass through the `select` of the consumer loop: either a signal is waiting on
`sigchan`, or the `default` branch polls the broker. -/
inductive Tick
  | signal (sig : String)
  | poll (ev : Option Event)
  deriving DecidableEq, Repr

/-- A message of one of the schema's types. -/
inductive ProtoMessage
  | user (u : User)
  | preferences (p : Preferences)
  deriving DecidableEq, Repr

/-- The pair `(value, err)` returned by `deser.Deserialize`; `value` is an interface
and may be nil. -/
structure DeserResult where
  value : Option ProtoMessage
  err : Option String
  deriving DecidableEq, Repr

/-- What the consumer does, one constructor per externally visible call. -/
inductive ConsumerAction
  | signalNotify
  | fatalMissing (key : String)
  | newConsumer (bootstrapServers group username password autoOffsetReset : String)
  | exitNewConsumer
  | printCreated
  | newClient (url userInfo : String)
  | exitNewClient
  | newDeserializer
  | exitNewDeserializer
  | registerMessage (t : MessageType)
  | subscribeTopics (topics : List String)
  | exitSubscribe
  | printSignal (sig : String)
  | poll
  | deserialize (topic : String) (payload : Bytes)
  | printFailed (err : String)
  | printMessage (tp : TopicPartition) (value : Option ProtoMessage)
  | printHeaders (headers : List Header)
  | printError (code : Int) (text : String)
  | printIgnored (text : String)
  | printClosing
  | close
  deriving DecidableEq, Repr

/-- Answers of the library calls made by the consumer. `deserialize` is
`deser.Deserialize`: it reads the type registry and threads the deserializer's
internal state of type `κ`. -/
structure ConsumerWorld (κ : Type) where
  newConsumerErr : Bool
  newClientErr : Bool
  newDeserializerErr : Bool
  subscribeErr : Bool
  initState : κ
  deserialize : List MessageType → κ → String → Bytes → DeserResult × κ

/-- The effect of `ProtoRegistry.RegisterMessage` on the registered types. -/
def RegisterMessage (registry : List MessageType) (t : MessageType) : List MessageType :=
  registry ++ [t]

/-- The variables of the consumer loop. -/
structure LoopState (κ : Type) where
  run : Bool
  registry : List MessageType
  deser : κ
  out : List ConsumerAction

/-- The `case *kafka.Message` branch, lines 141-150. -/
def handleMessage {κ : Type} (w : ConsumerWorld κ) (registry : List MessageType) (d : κ)
    (e : Message) : List ConsumerAction × κ :=
  let r := w.deserialize registry d e.TopicPartition.Topic e.Value
  (ConsumerAction.deserialize e.TopicPartition.Topic e.Value ::
    (match r.1.err with
      | some err => ConsumerAction.printFailed err
      | none => ConsumerAction.printMessage e.TopicPartition r.1.value) ::
    (match e.Headers with
      | some h => [ConsumerAction.printHeaders h]
      | none => []),
   r.2)

/-- One iteration of the body of `for run { select { ... } }`, lines 130-159. -/
def loopBody {κ : Type} (w : ConsumerWorld κ) (s : LoopState κ) : Tick → LoopState κ
  | Tick.signal sig =>
    { s with run := false, out := s.out ++ [ConsumerAction.printSignal sig] }
  | Tick.poll none =>
    { s with out := s.out ++ [ConsumerAction.poll] }
  | Tick.poll (some (Event.message e)) =>
    let r := handleMessage w s.registry s.deser e
    { s with deser := r.2, out := s.out ++ ConsumerAction.poll :: r.1 }
  | Tick.poll (some (Event.error code text)) =>
    { s with out := s.out ++ [ConsumerAction.poll, ConsumerAction.printError code text] }
  | Tick.poll (some (Event.other text)) =>
    { s with out := s.out ++ [ConsumerAction.poll, ConsumerAction.printIgnored text] }

/-- The loop `for run { ... }` driven by the passes in `ticks`; when the list is
used up with `run` still true the state reached so far is returned. -/
def runLoop {κ : Type} (w : ConsumerWorld κ) : LoopState κ → List Tick → LoopState κ
  | s, [] => s
  | s, t :: ts => if s.run then runLoop w (loopBody w s t) ts else s

/-- Lines 127-163: the loop followed, once `run` is false, by the closing of the
consumer. -/
def consumerLoop {κ : Type} (w : ConsumerWorld κ) (registry : List MessageType)
    (ticks : List Tick) : List ConsumerAction :=
  let s := runLoop w { run := true, registry := registry, deser := w.initState, out := [] } ticks
  s.out ++ if s.run then [] else [ConsumerAction.printClosing, ConsumerAction.close]

/-- The function `main` of `consumer/main.go` from line 45 on. `order` is the order in
which the `range` loop visits the entries of `required`. -/
def consumerMain {κ : Type} (env : Env) (order : List (String × String))
    (w : ConsumerWorld κ) (ticks : List Tick) : List ConsumerAction :=
  let c := consumerReadEnv env
  ConsumerAction.signalNotify ::
  match validate order with
  | some key => [ConsumerAction.fatalMissing key]
  | none =>
    ConsumerAction.newConsumer c.bootstrapServers c.group c.kafkaAPIKey c.kafkaAPISecret
      c.auto_offset ::
    if w.newConsumerErr then [ConsumerAction.exitNewConsumer] else
    ConsumerAction.printCreated ::
    ConsumerAction.newClient c.srURL (c.srAPIKey ++ ":" ++ c.srAPISecret) ::
    if w.newClientErr then [ConsumerAction.exitNewClient] else
    ConsumerAction.newDeserializer ::
    if w.newDeserializerErr then [ConsumerAction.exitNewDeserializer] else
    ConsumerAction.registerMessage MessageType.User ::
    ConsumerAction.subscribeTopics (Split c.topic_names ',') ::
    if w.subscribeErr then [ConsumerAction.exitSubscribe] else
    consumerLoop w (RegisterMessage [] MessageType.User) ticks

/-! ## Concrete inputs -/

/-- An environment in which all seven producer variables are set. -/
def producerEnvOk : Env :=
  [("BOOTSTRAP_SERVERS", "broker:9092"), ("TOPIC_NAME", "users"), ("KAFKA_API_KEY", "k"),
   ("KAFKA_API_SECRET", "s"), ("SCHEMA_REGISTRY_URL", "https://sr"),
   ("SCHEMA_REGISTRY_API_KEY", "rk"), ("SCHEMA_REGISTRY_API_SECRET", "rs")]

/-- An environment in which `KAFKA_API_SECRET` is set to the empty string. -/
def producerEnvEmptySecret : Env :=
  [("BOOTSTRAP_SERVERS", "broker:9092"), ("TOPIC_NAME", "users"), ("KAFKA_API_KEY", "k"),
   ("KAFKA_API_SECRET", ""), ("SCHEMA_REGISTRY_URL", "https://sr"),
   ("SCHEMA_REGISTRY_API_KEY", "rk"), ("SCHEMA_REGISTRY_API_SECRET", "rs")]

/-- A world in which every library call of the producer succeeds. -/
def producerWorldOk : ProducerWorld :=
  { newProducerErr := false, newClientErr := false, newSerializerErr := false,
    marshal := fun _ => some [10, 2, 101, 110, 16, 1],
    serialize := fun _ _ => some [0, 0, 0, 0, 7, 0],
    produceErr := false, deliveryErr := false }


/-- An environment in which all nine consumer variables are set. -/
def consumerEnvOk : Env :=
  [("BOOTSTRAP_SERVERS", "broker:9092"), ("TOPIC_NAMES", "users,orders"),
   ("KAFKA_API_KEY", "k"), ("KAFKA_API_SECRET", "s"), ("SCHEMA_REGISTRY_URL", "https://sr"),
   ("SCHEMA_REGISTRY_API_KEY", "rk"), ("SCHEMA_REGISTRY_API_SECRET", "rs"),
   ("CONSUMER_GROUP_ID", "g1"), ("CONSUMER_AUTO_OFFSET", "earliest")]

/-- An environment in which `TOPIC_NAMES` is not set while every other variable of
the consumer, and also `TOPIC_NAME`, is set to a non-empty value. -/
def consumerEnvNoTopicNames : Env :=
  [("BOOTSTRAP_SERVERS", "broker:9092"), ("TOPIC_NAME", "users"),
   ("KAFKA_API_KEY", "k"), ("KAFKA_API_SECRET", "s"), ("SCHEMA_REGISTRY_URL", "https://sr"),
   ("SCHEMA_REGISTRY_API_KEY", "rk"), ("SCHEMA_REGISTRY_API_SECRET", "rs"),
   ("CONSUMER_GROUP_ID", "g1"), ("CONSUMER_AUTO_OFFSET", "earliest")]

/-- A world in which every library call of the consumer succeeds and `Deserialize`
fails on an empty payload and returns a fixed `User` otherwise. -/
def consumerWorldOk : ConsumerWorld Unit :=
  { newConsumerErr := false, newClientErr := false, newDeserializerErr := false,
    subscribeErr := false, initState := (),
    deserialize := fun _ _ _ payload =>
      match payload with
      | [] => ({ value := none, err := some "unknown magic byte" }, ())
      | _ :: _ =>
        ({ value := some (ProtoMessage.user
            { Name := "First user", FavoriteNumber := 42, FavoriteColor := "blue",
              ExtraData := none }),
           err := none }, ()) }

/-- The characters written after the first element by `strings.Join`: each further
element preceded by the separator. -/
def joinTail (sep : List Char) : List (List Char) → List Char
  | [] => []
  | p :: ps => sep ++ p ++ joinTail sep ps

/-! ## Reading traces -/

/-- Actions emitted by the body of the consumer loop. -/
def bodyAction : ConsumerAction → Bool
  | ConsumerAction.printSignal _ => true
  | ConsumerAction.poll => true
  | ConsumerAction.deserialize _ _ => true
  | ConsumerAction.printFailed _ => true
  | ConsumerAction.printMessage _ _ => true
  | ConsumerAction.printHeaders _ => true
  | ConsumerAction.printError _ _ => true
  | ConsumerAction.printIgnored _ => true
  | _ => false

/-- The arguments of the `Deserialize` calls of a trace, in order. -/
def deserializeCalls : List ConsumerAction → List (String × Bytes)
  | [] => []
  | ConsumerAction.deserialize topic payload :: rest => (topic, payload) :: deserializeCalls rest
  | _ :: rest => deserializeCalls rest

/-- The header lists printed in a trace, in order. -/
def printedHeaders : List ConsumerAction → List (List Header)
  | [] => []
  | ConsumerAction.printHeaders h :: rest => h :: printedHeaders rest
  | _ :: rest => printedHeaders rest

/-- The number of `c.Poll` calls of a trace. -/
def pollCount : List ConsumerAction → Nat
  | [] => 0
  | ConsumerAction.poll :: rest => pollCount rest + 1
  | _ :: rest => pollCount rest

/-- The types registered in a trace before its first `Deserialize` call. -/
def registeredBefore : List ConsumerAction → List MessageType
  | [] => []
  | ConsumerAction.deserialize _ _ :: _ => []
  | ConsumerAction.registerMessage t :: rest => t :: registeredBefore rest
  | _ :: rest => registeredBefore rest

/-- The header part of the output of the message branch, lines 148-150. -/
def headerOutput (e : Message) : List ConsumerAction :=
  match e.Headers with
  | some h => [ConsumerAction.printHeaders h]
  | none => []

/-- A received message with a header, a key and an unreadable (empty) payload. -/
def messageBad : Message :=
  { TopicPartition := { Topic := "users", Partition := 0, Offset := 7 },
    Value := [], Key := [1],
    Headers := some [{ Key := "myTestHeader", Value := [104, 105] }] }

/-- A received message with a header and a readable payload. -/
def messageGood : Message :=
  { TopicPartition := { Topic := "users", Partition := 0, Offset := 8 },
    Value := [0, 0, 0, 0, 7, 0], Key := [],
    Headers := some [{ Key := "myTestHeader", Value := [104, 105] }] }

/-- The actions of `consumer/main.go` before the loop when validation and every
library call succeed, lines 56-125. -/
def consumerSetup (env : Env) : List ConsumerAction :=
  let c := consumerReadEnv env
  [ConsumerAction.signalNotify,
   ConsumerAction.newConsumer c.bootstrapServers c.group c.kafkaAPIKey c.kafkaAPISecret
     c.auto_offset,
   ConsumerAction.printCreated,
   ConsumerAction.newClient c.srURL (c.srAPIKey ++ ":" ++ c.srAPISecret),
   ConsumerAction.newDeserializer,
   ConsumerAction.registerMessage MessageType.User,
   ConsumerAction.subscribeTopics (Split c.topic_names ',')]

/-- The state in which the consumer loop starts, line 127. -/
def loopStart {κ : Type} (w : ConsumerWorld κ) (registry : List MessageType) : LoopState κ :=
  { run := true, registry := registry, deser := w.initState, out := [] }

/-- The types of the boxed sub-messages of a `User`: the type held in `ExtraData`. -/
def boxedTypes (u : User) : List MessageType :=
  match u.ExtraData with
  | some b => [b.typeName]
  | none => []

/-- The message types the producer puts into its payloads: for every `Serialize` call
the top-level type `User` and the types boxed in the message. -/
def encodedTypes : List ProducerAction → List MessageType
  | [] => []
  | ProducerAction.serialize _ value :: rest =>
    MessageType.User :: boxedTypes value ++ encodedTypes rest
  | _ :: rest => encodedTypes rest

/-! ## Serializer and deserializer

`ser.Serialize` and `deser.Deserialize` are calls into the schema-registry library;
their code is not part of the two source files, and neither is the code generated from
the protobuf schema. The definitions of this section follow the description of that
layer in sections 3, 4.3, 4.4, 6 and 7 of the specification, the wire format of the
registry-aware clients that section 6 requires to be matched byte for byte, and the
comment at lines 113-115 of `consumer/main.go`, by which the type to be returned by
`Deserialize` is the one that has to be registered. -/

/-- Modelled from the spec: the error values of the serializer and deserializer, which
belong to the schema-registry library and are not in the source files; this is the
taxonomy of section 7. -/
inductive SerdeError
  | ConfigError
  | NetworkError
  | AuthError
  | FormatError
  | SchemaNotFoundError
  | DecodeError
  | UnregisteredTypeError
  deriving DecidableEq, Repr

/-- The type of a message. -/
def messageTypeOf : ProtoMessage → MessageType
  | ProtoMessage.user _ => MessageType.User
  | ProtoMessage.preferences _ => MessageType.Preferences

/-! ### Variable-length integers -/

/-- Modelled from the spec: the index encoder of the library is not in the source
files; this is the zig-zag encoding of a signed integer (section 6). -/
def zigzag (i : Int) : Nat :=
  if 0 ≤ i then 2 * i.toNat else 2 * (-i).toNat - 1

/-- Modelled from the spec: the index decoder of the library is not in the source
files; this undoes the zig-zag encoding. -/
def unzigzag (n : Nat) : Int :=
  if n % 2 = 0 then ((n / 2 : Nat) : Int) else -(((n + 1) / 2 : Nat) : Int)

/-- Modelled from the spec: the index encoder of the library is not in the source
files; this is the variable-length encoding, seven bits per byte, least significant
group first, the top bit marking that more bytes follow. The first argument bounds
the number of groups. -/
def varintFuel : Nat → Nat → Bytes
  | 0, n => [n % 128]
  | fuel + 1, n => if n < 128 then [n] else (n % 128 + 128) :: varintFuel fuel (n / 128)

/-- Modelled from the spec: the index encoder of the library is not in the source
files; this is the variable-length encoding of the message-index integers
(section 6), which is also the one of the protobuf binary format. -/
def varint (n : Nat) : Bytes :=
  varintFuel n n

/-- Modelled from the spec: the index decoder of the library is not in the source
files; this reads one variable-length integer and returns the rest of the input
with it. -/
def readVarint : Bytes → Option (Nat × Bytes)
  | [] => none
  | b :: rest =>
    if b < 128 then some (b, rest)
    else
      match readVarint rest with
      | none => none
      | some (n, r) => some (b - 128 + 128 * n, r)

/-! ### The protobuf binary format of `User` and `Preferences` -/

/-- Modelled from the spec: the generated marshalling code is not in the source files;
this is the UTF-8 encoding of one code point, the form in which the binary format
(section 4.3, step b) holds the characters of a string field. -/
def utf8Nat (n : Nat) : Bytes :=
  if n < 128 then [n]
  else if n < 2048 then [192 + n / 64, 128 + n % 64]
  else if n < 65536 then [224 + n / 4096, 128 + n / 64 % 64, 128 + n % 64]
  else [240 + n / 262144, 128 + n / 4096 % 64, 128 + n / 64 % 64, 128 + n % 64]

/-- Modelled from the spec: the generated marshalling code is not in the source files;
this is the UTF-8 encoding of a string, the bytes of a Go string. -/
def utf8 : List Char → Bytes
  | [] => []
  | c :: cs => utf8Nat c.toNat ++ utf8 cs

/-- Modelled from the spec: the generated unmarshalling code is not in the source files;
this tells a continuation byte of a UTF-8 sequence. -/
def isContinuation (b : Nat) : Bool :=
  decide (128 ≤ b) && decide (b < 192)

/-- Modelled from the spec: the generated unmarshalling code is not in the source
files; this reads one UTF-8 encoded code point, refusing overlong forms, surrogates
and values past the last code point. -/
def readUtf8Char : Bytes → Option (Char × Bytes)
  | [] => none
  | b0 :: rest =>
    if b0 < 128 then some (Char.ofNat b0, rest)
    else if b0 < 192 then none
    else if b0 < 224 then
      match rest with
      | b1 :: r =>
        if isContinuation b1 && decide (128 ≤ (b0 - 192) * 64 + (b1 - 128)) then
          some (Char.ofNat ((b0 - 192) * 64 + (b1 - 128)), r)
        else none
      | _ => none
    else if b0 < 240 then
      match rest with
      | b1 :: b2 :: r =>
        if isContinuation b1 && isContinuation b2 &&
            decide (2048 ≤ ((b0 - 224) * 64 + (b1 - 128)) * 64 + (b2 - 128)) &&
            !(decide (55296 ≤ ((b0 - 224) * 64 + (b1 - 128)) * 64 + (b2 - 128)) &&
              decide (((b0 - 224) * 64 + (b1 - 128)) * 64 + (b2 - 128) < 57344)) then
          some (Char.ofNat (((b0 - 224) * 64 + (b1 - 128)) * 64 + (b2 - 128)), r)
        else none
      | _ => none
    else if b0 < 248 then
      match rest with
      | b1 :: b2 :: b3 :: r =>
        if isContinuation b1 && isContinuation b2 && isContinuation b3 &&
            decide (65536 ≤
              (((b0 - 240) * 64 + (b1 - 128)) * 64 + (b2 - 128)) * 64 + (b3 - 128)) &&
            decide ((((b0 - 240) * 64 + (b1 - 128)) * 64 + (b2 - 128)) * 64 + (b3 - 128) <
              1114112) then
          some (Char.ofNat
            ((((b0 - 240) * 64 + (b1 - 128)) * 64 + (b2 - 128)) * 64 + (b3 - 128)), r)
        else none
      | _ => none
    else none

/-- Modelled from the spec: the generated unmarshalling code is not in the source files;
this reads UTF-8 encoded code points until the input is used up; the first argument
bounds the number of code points. -/
def decodeUtf8Fuel : Nat → Bytes → Option (List Char)
  | _, [] => some []
  | 0, _ :: _ => none
  | fuel + 1, b :: bs =>
    match readUtf8Char (b :: bs) with
    | none => none
    | some (c, rest) =>
      match decodeUtf8Fuel fuel rest with
      | none => none
      | some cs => some (c :: cs)

/-- Modelled from the spec: the generated unmarshalling code is not in the source
files; this reads the bytes of a string field, which must be valid UTF-8. -/
def decodeUtf8 (bs : Bytes) : Option (List Char) :=
  decodeUtf8Fuel bs.length bs

/-- Modelled from the spec: the generated unmarshalling code is not in the source files;
this is the value of one field of the binary format, by wire type: 0 variable-length
integer, 1 eight bytes, 2 length-delimited, 5 four bytes. -/
inductive WireValue
  | varint (n : Nat)
  | fixed64 (b : Bytes)
  | bytes (b : Bytes)
  | fixed32 (b : Bytes)
  deriving DecidableEq, Repr

/-- Modelled from the spec: the generated marshalling code is not in the source files;
this is the key in front of a field: field number and wire type. -/
def tag (fieldNumber wireType : Nat) : Bytes :=
  varint (fieldNumber * 8 + wireType)

/-- Modelled from the spec: the generated marshalling code is not in the source files;
this is a length-delimited field: key, length, content. -/
def lengthDelimited (fieldNumber : Nat) (content : Bytes) : Bytes :=
  tag fieldNumber 2 ++ varint content.length ++ content

/-- Modelled from the spec: the generated marshalling code is not in the source files;
this is a string field; the empty string is not written. -/
def encodeString (fieldNumber : Nat) (s : String) : Bytes :=
  if s = "" then [] else lengthDelimited fieldNumber (utf8 s.data)

/-- Modelled from the spec: the generated marshalling code is not in the source files;
this is a bytes field; empty bytes are not written. -/
def encodeBytes (fieldNumber : Nat) (b : Bytes) : Bytes :=
  if b = [] then [] else lengthDelimited fieldNumber b

/-- Modelled from the spec: the generated marshalling code is not in the source files;
this is an `int64` field; zero is not written, a negative number is written as its
64-bit two's complement. -/
def encodeInt64 (fieldNumber : Nat) (n : Int) : Bytes :=
  if n = 0 then [] else tag fieldNumber 0 ++ varint (n % 18446744073709551616).toNat

/-- Modelled from the spec: the generated marshalling code is not in the source files;
this is a `bool` field; false is not written. -/
def encodeBool (fieldNumber : Nat) (b : Bool) : Bytes :=
  if b then tag fieldNumber 0 ++ [1] else []

/-- Modelled from the spec: the schema file is not in the source files; this is the type
URL under which `anypb.New` boxes a message of the given type, `fullName` giving the
full names of the message types in the schema. -/
def typeUrl (fullName : MessageType → String) (t : MessageType) : String :=
  "type.googleapis.com/" ++ fullName t

/-- Modelled from the spec: the schema file is not in the source files; this is the
message type a type URL stands for. -/
def typeOfUrl (fullName : MessageType → String) (url : String) : Option MessageType :=
  if url = typeUrl fullName MessageType.User then some MessageType.User
  else if url = typeUrl fullName MessageType.Preferences then some MessageType.Preferences
  else none

/-- Modelled from the spec: the generated marshalling code is not in the source files;
this is the binary format of an `Any`: `type_url` is field 1 and `value` field 2. -/
def encodeAny (fullName : MessageType → String) (a : AnyBox) : Bytes :=
  encodeString 1 (typeUrl fullName a.typeName) ++ encodeBytes 2 a.value

/-- Modelled from the spec: the schema file and the code generated from it are not in
the source files; this is the binary format of `Preferences` (section 4.3, step b),
its fields numbered in the order of the struct literal at lines 82-85 of
`producer/main.go`. -/
def encodePreferences (p : Preferences) : Bytes :=
  encodeString 1 p.Language ++ encodeBool 2 p.DarkMode

/-- Modelled from the spec: the schema file and the code generated from it are not in
the source files; this is the binary format of `User` (section 4.3, step b), its
fields numbered in the order of the struct literal at lines 94-99 of
`producer/main.go`. A nil `ExtraData` is not written; a non-nil one is written as a
length-delimited field holding the `Any`. -/
def encodeUser (fullName : MessageType → String) (u : User) : Bytes :=
  encodeString 1 u.Name ++ encodeInt64 2 u.FavoriteNumber ++ encodeString 3 u.FavoriteColor ++
    (match u.ExtraData with
      | some a => lengthDelimited 4 (encodeAny fullName a)
      | none => [])

/-- Modelled from the spec: the schema's binary format of section 4.3, step b, for the
two message types of the schema. -/
def protoEncode (fullName : MessageType → String) : ProtoMessage → Bytes
  | ProtoMessage.user u => encodeUser fullName u
  | ProtoMessage.preferences p => encodePreferences p

/-- The fields a string field is read as: none for the empty string. -/
def stringFields (fieldNumber : Nat) (s : String) : List (Nat × WireValue) :=
  if s = "" then [] else [(fieldNumber, WireValue.bytes (utf8 s.data))]

/-- The fields a bytes field is read as: none for empty bytes. -/
def bytesFields (fieldNumber : Nat) (b : Bytes) : List (Nat × WireValue) :=
  if b = [] then [] else [(fieldNumber, WireValue.bytes b)]

/-- The fields an `int64` field is read as: none for zero. -/
def int64Fields (fieldNumber : Nat) (n : Int) : List (Nat × WireValue) :=
  if n = 0 then [] else [(fieldNumber, WireValue.varint (n % 18446744073709551616).toNat)]

/-- The fields a `bool` field is read as: none for false. -/
def boolFields (fieldNumber : Nat) (b : Bool) : List (Nat × WireValue) :=
  if b then [(fieldNumber, WireValue.varint 1)] else []

/-- The fields the `ExtraData` of a `User` is read as: none for nil. -/
def extraFields (fullName : MessageType → String) (extra : Option AnyBox) :
    List (Nat × WireValue) :=
  match extra with
  | some a => [(4, WireValue.bytes (encodeAny fullName a))]
  | none => []

/-- Modelled from the spec: the generated unmarshalling code is not in the source files;
this splits off the first `n` bytes, if there are that many. -/
def takeBytes (n : Nat) (bs : Bytes) : Option (Bytes × Bytes) :=
  if bs.length < n then none else some (bs.take n, bs.drop n)

/-- Modelled from the spec: the generated unmarshalling code is not in the source files;
this reads one field: its number, its value and the rest of the input. Field
number 0 and the wire types 3, 4, 6 and 7 are refused. -/
def readField (bs : Bytes) : Option ((Nat × WireValue) × Bytes) :=
  match readVarint bs with
  | none => none
  | some (key, rest) =>
    if key / 8 = 0 then none
    else if key % 8 = 0 then
      match readVarint rest with
      | none => none
      | some (v, r) => some ((key / 8, WireValue.varint v), r)
    else if key % 8 = 1 then
      match takeBytes 8 rest with
      | none => none
      | some (b, r) => some ((key / 8, WireValue.fixed64 b), r)
    else if key % 8 = 2 then
      match readVarint rest with
      | none => none
      | some (len, r) =>
        match takeBytes len r with
        | none => none
        | some (b, r') => some ((key / 8, WireValue.bytes b), r')
    else if key % 8 = 5 then
      match takeBytes 4 rest with
      | none => none
      | some (b, r) => some ((key / 8, WireValue.fixed32 b), r)
    else none

/-- Modelled from the spec: the generated unmarshalling code is not in the source files;
this reads fields until the input is used up; the first argument bounds the number
of fields. -/
def readFields : Nat → Bytes → Option (List (Nat × WireValue))
  | _, [] => some []
  | 0, _ :: _ => none
  | fuel + 1, b :: bs =>
    match readField (b :: bs) with
    | none => none
    | some (f, rest) =>
      match readFields fuel rest with
      | none => none
      | some fs => some (f :: fs)

/-- Modelled from the spec: the generated unmarshalling code is not in the source files;
this applies the fields read to a message under construction, in order. -/
def applyFields {σ : Type} (step : σ → Nat × WireValue → Option σ) :
    σ → List (Nat × WireValue) → Option σ
  | s, [] => some s
  | s, f :: fs =>
    match step s f with
    | none => none
    | some s' => applyFields step s' fs

/-- Modelled from the spec: the generated unmarshalling code is not in the source files;
this unmarshals into a message under construction: the fields of the input are read
and applied one after the other, a later occurrence of a field replacing an earlier
one. -/
def mergeFields {σ : Type} (step : σ → Nat × WireValue → Option σ) (init : σ) (bs : Bytes) :
    Option σ :=
  match readFields bs.length bs with
  | none => none
  | some fs => applyFields step init fs

/-- Modelled from the spec: the generated unmarshalling code is not in the source files;
this is the string held in a string field. -/
def stringOf (b : Bytes) : Option String :=
  match decodeUtf8 b with
  | none => none
  | some cs => some (String.mk cs)

/-- Modelled from the spec: the generated unmarshalling code is not in the source files;
this is the `int64` held in a variable-length integer: the low 64 bits as two's
complement. -/
def toInt64 (v : Nat) : Int :=
  if v % 18446744073709551616 < 9223372036854775808 then
    ((v % 18446744073709551616 : Nat) : Int)
  else ((v % 18446744073709551616 : Nat) : Int) - 18446744073709551616

/-- Modelled from the spec: the generated unmarshalling code is not in the source files;
this is an `anypb.Any` as the Go struct holds it: type URL and packed bytes. -/
structure AnyRaw where
  TypeUrl : String
  Value : Bytes
  deriving DecidableEq, Repr

/-- Modelled from the spec: the generated unmarshalling code is not in the source files;
this is a `User` under construction, its `ExtraData` still holding the type URL. -/
structure UserRaw where
  Name : String
  FavoriteNumber : Int
  FavoriteColor : String
  ExtraData : Option AnyRaw
  deriving DecidableEq, Repr

/-- Modelled from the spec: the generated unmarshalling code is not in the source files;
this applies one field of an `Any`; fields that are not known are skipped. -/
def anyStep (a : AnyRaw) (f : Nat × WireValue) : Option AnyRaw :=
  match f.2 with
  | WireValue.bytes b =>
    if f.1 = 1 then
      match stringOf b with
      | none => none
      | some s => some { a with TypeUrl := s }
    else if f.1 = 2 then some { a with Value := b }
    else some a
  | _ => some a

/-- Modelled from the spec: the generated unmarshalling code is not in the source files;
this applies one field of a `Preferences`; fields that are not known are skipped. -/
def preferencesStep (p : Preferences) (f : Nat × WireValue) : Option Preferences :=
  match f.2 with
  | WireValue.bytes b =>
    if f.1 = 1 then
      match stringOf b with
      | none => none
      | some s => some { p with Language := s }
    else some p
  | WireValue.varint v =>
    if f.1 = 2 then some { p with DarkMode := decide (v ≠ 0) } else some p
  | _ => some p

/-- Modelled from the spec: the generated unmarshalling code is not in the source files;
this applies one field of a `User`; fields that are not known are skipped. The `Any`
of field 4 is unmarshalled into the one already there, if any, and stays packed. -/
def userStep (u : UserRaw) (f : Nat × WireValue) : Option UserRaw :=
  match f.2 with
  | WireValue.bytes b =>
    if f.1 = 1 then
      match stringOf b with
      | none => none
      | some s => some { u with Name := s }
    else if f.1 = 3 then
      match stringOf b with
      | none => none
      | some s => some { u with FavoriteColor := s }
    else if f.1 = 4 then
      match mergeFields anyStep (u.ExtraData.getD { TypeUrl := "", Value := [] }) b with
      | none => none
      | some a => some { u with ExtraData := some a }
    else some u
  | WireValue.varint v =>
    if f.1 = 2 then some { u with FavoriteNumber := toInt64 v } else some u
  | _ => some u

/-- Modelled from the spec: the generated unmarshalling code is not in the source files;
this is the `User` value of a finished `UserRaw`; the type URL of `ExtraData` has to be
one of the two of the schema. -/
def toUser (fullName : MessageType → String) (r : UserRaw) : Option User :=
  match r.ExtraData with
  | none =>
    some { Name := r.Name, FavoriteNumber := r.FavoriteNumber,
           FavoriteColor := r.FavoriteColor, ExtraData := none }
  | some a =>
    match typeOfUrl fullName a.TypeUrl with
    | none => none
    | some t =>
      some { Name := r.Name, FavoriteNumber := r.FavoriteNumber,
             FavoriteColor := r.FavoriteColor,
             ExtraData := some { typeName := t, value := a.Value } }

/-- Modelled from the spec: the schema's binary format of section 4.4, read into a
message of the given type. -/
def protoDecode (fullName : MessageType → String) (t : MessageType) (bs : Bytes) :
    Option ProtoMessage :=
  match t with
  | MessageType.User =>
    match mergeFields userStep
        { Name := "", FavoriteNumber := 0, FavoriteColor := "", ExtraData := none } bs with
    | none => none
    | some r =>
      match toUser fullName r with
      | none => none
      | some u => some (ProtoMessage.user u)
  | MessageType.Preferences =>
    match mergeFields preferencesStep { Language := "", DarkMode := false } bs with
    | none => none
    | some p => some (ProtoMessage.preferences p)

/-- A message as a Go value can hold it: `FavoriteNumber` is an `int64`. -/
def WellFormed : ProtoMessage → Prop
  | ProtoMessage.user u =>
    -9223372036854775808 ≤ u.FavoriteNumber ∧ u.FavoriteNumber < 9223372036854775808
  | ProtoMessage.preferences _ => True

/-! ### Schemas, registry and wire envelope -/

/-- Modelled from the spec: the schema type of the registry library is not in the
source files; this is the Schema Descriptor of section 3, identified by
`(subject, version, id)`. The schema definition is represented by what the serializer
and deserializer use of it: whether the format holds several message types per
schema, the message index of each type, and the binary format of the payload. -/
structure Descriptor where
  subject : String
  version : Nat
  id : Nat
  multi : Bool
  messageIndex : MessageType → List Int
  typeAt : List Int → Option MessageType
  encode : ProtoMessage → Bytes
  decode : MessageType → Bytes → Option ProtoMessage

/-- Modelled from the spec: the registry client of the library is not in the source
files; this is the registry as seen through the Registry Client and the Schema Cache
of sections 4.1 and 4.2, the current schema of a subject and the descriptor of a
schema id. -/
structure Registry where
  current : String → Option Descriptor
  lookup : Nat → Option Descriptor

/-- Modelled from the spec: the wire format constant of the library is not in the
source files; this is the fixed magic value of byte 0 of the Wire Envelope (section 6),
which in the registry wire format is zero. -/
def magicByte : Nat := 0

/-- Modelled from the spec: the header writer of the library is not in the source
files; these are bytes 1-4 of the Wire Envelope, the big-endian 32-bit schema id. -/
def bigEndian32 (n : Nat) : Bytes :=
  [n / 16777216 % 256, n / 65536 % 256, n / 256 % 256, n % 256]

/-- Modelled from the spec: the header reader of the library is not in the source
files; this reads the big-endian 32-bit schema id of bytes 1-4. -/
def fromBigEndian32 (b1 b2 b3 b4 : Nat) : Nat :=
  ((b1 * 256 + b2) * 256 + b3) * 256 + b4

/-- Modelled from the spec: the index encoder of the library is not in the source
files; this writes zig-zag encoded integers one after the other. -/
def writeInts : List Int → Bytes
  | [] => []
  | i :: is => varint (zigzag i) ++ writeInts is

/-- Modelled from the spec: the index encoder of the library is not in the source
files; this is the variable-length zig-zag-encoded message-index array of the Wire
Envelope as the registry-aware clients write it (section 6): the path `[0]` of the
first message type of a schema is the single byte 0, any other path is its length
followed by its elements. -/
def writeIndexes (idx : List Int) : Bytes :=
  if idx = [0] then [0]
  else varint (zigzag (idx.length : Int)) ++ writeInts idx

/-- Modelled from the spec: the index decoder of the library is not in the source
files; this reads the given number of zig-zag encoded integers. -/
def readInts : Nat → Bytes → Option (List Int × Bytes)
  | 0, bs => some ([], bs)
  | k + 1, bs =>
    match readVarint bs with
    | none => none
    | some (n, rest) =>
      match readInts k rest with
      | none => none
      | some (is, r) => some (unzigzag n :: is, r)

/-- Modelled from the spec: the index decoder of the library is not in the source
files; this reads the message-index array as the registry-aware clients do
(section 6): a length of zero stands for the path `[0]`. -/
def readIndexes (bs : Bytes) : Option (List Int × Bytes) :=
  match readVarint bs with
  | none => none
  | some (n, rest) =>
    if unzigzag n = 0 then some ([0], rest)
    else if unzigzag n < 0 then none
    else readInts (unzigzag n).toNat rest

/-- Modelled from the spec: `ser.Serialize` is a call into the library and its code is
not in the source files; this is `serialize(subject, message)` of section 4.3 with
auto-registration disabled. (a) the current schema of the subject is fetched, a
missing schema being an error; (b) the message is encoded in the schema's binary
format; (c) the magic byte and the schema id are put in front; (d) for a format with
several message types per schema the message-index integers follow the header. -/
def serialize (reg : Registry) (subject : String) (m : ProtoMessage) :
    Except SerdeError Bytes :=
  match reg.current subject with
  | none => Except.error SerdeError.SchemaNotFoundError
  | some d =>
    Except.ok (magicByte :: bigEndian32 d.id ++
      (if d.multi then writeIndexes (d.messageIndex (messageTypeOf m)) else []) ++
      d.encode m)

/-- Modelled from the spec: `deser.Deserialize` is a call into the library and its
code is not in the source files; these are the last steps of `deserialize`,
section 4.4. The message indexes pick the message type of the schema; that type, the
one `Deserialize` is to return, has to be in the Message Type Registry
(`UnregisteredTypeError` otherwise; lines 113-115 of `consumer/main.go`); the payload
is then decoded with the resolved schema (`DecodeError` when it does not match).
Boxed sub-messages stay packed and their types are not looked up. -/
def decodePayload (d : Descriptor) (typeRegistry : List MessageType) (idx : List Int)
    (payload : Bytes) : Except SerdeError ProtoMessage :=
  match d.typeAt idx with
  | none => Except.error SerdeError.DecodeError
  | some t =>
    if t ∈ typeRegistry then
      match d.decode t payload with
      | none => Except.error SerdeError.DecodeError
      | some m => Except.ok m
    else Except.error SerdeError.UnregisteredTypeError

/-- Modelled from the spec: `deser.Deserialize` is a call into the library and its
code is not in the source files; this is `deserialize(subject, bytes)` of
section 4.4. The magic byte is validated (`FormatError`), the schema id is read and
resolved (`SchemaNotFoundError`), the message indexes are read if the format has them,
and the remaining bytes are decoded. -/
def deserialize (reg : Registry) (typeRegistry : List MessageType) (_subject : String)
    (bytes : Bytes) : Except SerdeError ProtoMessage :=
  match bytes with
  | b0 :: b1 :: b2 :: b3 :: b4 :: rest =>
    if b0 ≠ magicByte then Except.error SerdeError.FormatError
    else
      match reg.lookup (fromBigEndian32 b1 b2 b3 b4) with
      | none => Except.error SerdeError.SchemaNotFoundError
      | some d =>
        if d.multi then
          match readIndexes rest with
          | none => Except.error SerdeError.FormatError
          | some (idx, payload) => decodePayload d typeRegistry idx payload
        else decodePayload d typeRegistry [] rest
  | _ => Except.error SerdeError.FormatError

/-- Modelled from the spec: the valid schemas of the round-trip law of section 8, which
the source files do not define. A schema is valid for a subject of a registry when it
is the subject's current schema and the one its id resolves to, its id fits in 32
bits, it is a protobuf schema (several message types, the binary format above, with
different full names for the two types), and the message index of each message type
is a non-empty path that leads back to that type. -/
def ValidSchema (reg : Registry) (subject : String) (d : Descriptor)
    (fullName : MessageType → String) : Prop :=
  reg.current subject = some d ∧ reg.lookup d.id = some d ∧ d.id < 4294967296 ∧
    d.multi = true ∧ d.encode = protoEncode fullName ∧ d.decode = protoDecode fullName ∧
    fullName MessageType.User ≠ fullName MessageType.Preferences ∧
    ∀ t, d.messageIndex t ≠ [] ∧ d.typeAt (d.messageIndex t) = some t

instance : DecidableEq (Except SerdeError Bytes) := fun a b =>
  match a, b with
  | Except.ok x, Except.ok y =>
    if h : x = y then isTrue (h ▸ rfl) else isFalse (fun e => h (Except.ok.inj e))
  | Except.error x, Except.error y =>
    if h : x = y then isTrue (h ▸ rfl) else isFalse (fun e => h (Except.error.inj e))
  | Except.ok _, Except.error _ => isFalse (fun e => Except.noConfusion e)
  | Except.error _, Except.ok _ => isFalse (fun e => Except.noConfusion e)

instance : DecidableEq (Except SerdeError ProtoMessage) := fun a b =>
  match a, b with
  | Except.ok x, Except.ok y =>
    if h : x = y then isTrue (h ▸ rfl) else isFalse (fun e => h (Except.ok.inj e))
  | Except.error x, Except.error y =>
    if h : x = y then isTrue (h ▸ rfl) else isFalse (fun e => h (Except.error.inj e))
  | Except.ok _, Except.error _ => isFalse (fun e => Except.noConfusion e)
  | Except.error _, Except.ok _ => isFalse (fun e => Except.noConfusion e)

/-- The text of an error value. -/
def errorText : SerdeError → String
  | SerdeError.ConfigError => "ConfigError"
  | SerdeError.NetworkError => "NetworkError"
  | SerdeError.AuthError => "AuthError"
  | SerdeError.FormatError => "FormatError"
  | SerdeError.SchemaNotFoundError => "SchemaNotFoundError"
  | SerdeError.DecodeError => "DecodeError"
  | SerdeError.UnregisteredTypeError => "UnregisteredTypeError"

/-- The answer of `ser.Serialize` as the producer sees it: the payload, or an error. -/
def serializeAnswer (r : Except SerdeError Bytes) : Option Bytes :=
  match r with
  | Except.ok bytes => some bytes
  | Except.error _ => none

/-- The answer of `deser.Deserialize` as the consumer sees it: the pair of a value and
an error. -/
def deserializeAnswer (r : Except SerdeError ProtoMessage) : DeserResult :=
  match r with
  | Except.ok m => { value := some m, err := none }
  | Except.error e => { value := none, err := some (errorText e) }

/-- A producer world whose `Serialize` is the serializer above over `reg`; all other
library calls succeed. -/
def serdeProducerWorld (reg : Registry) : ProducerWorld :=
  { newProducerErr := false, newClientErr := false, newSerializerErr := false,
    marshal := fun p => some (encodePreferences p),
    serialize := fun topic u => serializeAnswer (serialize reg topic (ProtoMessage.user u)),
    produceErr := false, deliveryErr := false }

/-- A consumer world whose `Deserialize` is the deserializer above over `reg`, reading
the consumer's type registry; all other library calls succeed. -/
def serdeConsumerWorld (reg : Registry) : ConsumerWorld Unit :=
  { newConsumerErr := false, newClientErr := false, newDeserializerErr := false,
    subscribeErr := false, initState := (),
    deserialize := fun typeRegistry _ topic bytes =>
      (deserializeAnswer (deserialize reg typeRegistry topic bytes), ()) }

/-- The box `anypb.New(prefs)` yields in the worlds above: the binary format of
`Preferences{Language: "en", DarkMode: true}`. -/
def exampleBox : AnyBox :=
  { typeName := MessageType.Preferences, value := [10, 2, 101, 110, 16, 1] }

/-- The `User` message the producer builds, lines 94-99, as a message value. -/
def exampleUser : ProtoMessage :=
  ProtoMessage.user (producerUser exampleBox)

/-- Full names of the two message types in a schema of package `test`. -/
def exampleFullName : MessageType → String
  | MessageType.User => "test.User"
  | MessageType.Preferences => "test.Preferences"

/-- A protobuf schema with id 7 holding `User` at index 0 and `Preferences` at
index 1. -/
def exampleDescriptor : Descriptor :=
  { subject := "users", version := 1, id := 7, multi := true,
    messageIndex := fun t =>
      match t with
      | MessageType.User => [0]
      | MessageType.Preferences => [1],
    typeAt := fun idx =>
      if idx = [0] then some MessageType.User
      else if idx = [1] then some MessageType.Preferences else none,
    encode := protoEncode exampleFullName,
    decode := protoDecode exampleFullName }

/-- A registry holding that schema as the current schema of subject `users`. -/
def exampleRegistry : Registry :=
  { current := fun s => if s = "users" then some exampleDescriptor else none,
    lookup := fun id => if id = 7 then some exampleDescriptor else none }

/-- The bytes `serialize` produces for the producer's message over the example
registry: magic byte, schema id 7, the index array of path `[0]`, and the binary
format of the message. -/
def exampleBytes : Bytes :=
  [0, 0, 0, 0, 7, 0, 10, 10, 70, 105, 114, 115, 116, 32, 117, 115, 101, 114, 16, 42, 26, 4, 98,
   108, 117, 101, 34, 46, 10, 36, 116, 121, 112, 101, 46, 103, 111, 111, 103, 108, 101, 97,
   112, 105, 115, 46, 99, 111, 109, 47, 116, 101, 115, 116, 46, 80, 114, 101, 102, 101, 114,
   101, 110, 99, 101, 115, 18, 6, 10, 2, 101, 110, 16, 1]

/-- The message the consumer receives when the producer's message is delivered. -/
def exampleDelivered : Message :=
  { TopicPartition := { Topic := "users", Partition := 0, Offset := 0 },
    Value := exampleBytes, Key := [], Headers := some producerHeaders }
/-! ## Validation lemmas -/

theorem validate_eq_none_iff (l : List (String × String)) :
    validate l = none ↔ ∀ p ∈ l, p.2 ≠ "" := by
  induction l with
  | nil => simp [validate]
  | cons p rest ih =>
    obtain ⟨k, v⟩ := p
    by_cases hv : v = ""
    · simp [validate, hv]
    · simp [validate, hv, ih]

theorem validate_eq_some_mem (l : List (String × String)) (key : String)
    (h : validate l = some key) : (key, "") ∈ l := by
  induction l with
  | nil => simp [validate] at h
  | cons p rest ih =>
    obtain ⟨k, v⟩ := p
    by_cases hv : v = ""
    · simp [validate, hv] at h
      simp [h, hv]
    · simp [validate, hv] at h
      exact List.mem_cons_of_mem _ (ih h)

theorem validate_perm_none {l₁ l₂ : List (String × String)} (h : l₁.Perm l₂) :
    validate l₁ = none ↔ validate l₂ = none := by
  rw [validate_eq_none_iff, validate_eq_none_iff]
  constructor
  · intro H p hp
    exact H p (h.mem_iff.mpr hp)
  · intro H p hp
    exact H p (h.mem_iff.mp hp)


theorem validate_perm_some {l₁ l₂ : List (String × String)} (h : l₁.Perm l₂) (key : String)
    (hk : validate l₁ = some key) : (key, "") ∈ l₂ :=
  h.mem_iff.mp (validate_eq_some_mem l₁ key hk)

theorem validate_ne_none (l : List (String × String)) (h : validate l ≠ none) :
    ∃ key, validate l = some key := by
  cases hv : validate l with
  | none => exact absurd hv h
  | some key => exact ⟨key, rfl⟩

theorem producerRequired_valid_iff (env : Env) :
    validate (producerRequired (producerReadEnv env)) = none ↔
      ∀ name ∈ producerReadNames, Getenv env name ≠ "" := by
  simp [validate_eq_none_iff, producerRequired, producerReadEnv, producerReadNames]

theorem consumerRequired_valid_iff (env : Env) :
    validate (consumerRequired (consumerReadEnv env)) = none ↔
      ∀ name ∈ consumerRequiredNames, Getenv env name ≠ "" := by
  simp [validate_eq_none_iff, consumerRequired, consumerReadEnv, consumerRequiredNames]

theorem Getenv_Setenv_ne (env : Env) (k v name : String) (h : name ≠ k) :
    Getenv (Setenv env k v) name = Getenv env name := by
  have hb : (name == k) = false := by simpa using h
  simp [Getenv, Setenv, List.lookup, hb]

/-! ## Validation -/

/-- C2. For every environment and every order in which the `range` loop visits the
`required` map, the producer's first action is the creation of the Kafka producer
if and only if all seven variables are non-empty; when one of them is empty or
unset the whole run consists of the fatal `Missing required environment variable`
exit, so no producer is created and nothing is serialised or produced. -/
theorem producer_validation (env : Env) (order : List (String × String)) (w : ProducerWorld)
    (horder : order.Perm (producerRequired (producerReadEnv env))) :
    ((∃ rest, producerMain env order w =
        ProducerAction.newProducer (Getenv env "BOOTSTRAP_SERVERS")
          (Getenv env "KAFKA_API_KEY") (Getenv env "KAFKA_API_SECRET") :: rest)
      ↔ ∀ name ∈ producerReadNames, Getenv env name ≠ "") ∧
    ((∃ name ∈ producerReadNames, Getenv env name = "") →
      ∃ key, producerMain env order w = [ProducerAction.fatalMissing key]) := by
  have hiff : validate order = none ↔ ∀ name ∈ producerReadNames, Getenv env name ≠ "" :=
    (validate_perm_none horder).trans (producerRequired_valid_iff env)
  cases hv : validate order with
  | none =>
    have hall := hiff.mp hv
    refine ⟨⟨fun _ => hall, fun _ => ?_⟩, ?_⟩
    · simp only [producerMain, hv]
      exact ⟨_, rfl⟩
    · rintro ⟨name, hmem, hempty⟩
      exact absurd hempty (hall name hmem)
  | some key =>
    have hnot : ¬ ∀ name ∈ producerReadNames, Getenv env name ≠ "" := by
      intro hall
      have := hiff.mpr hall
      rw [hv] at this
      exact Option.noConfusion this
    refine ⟨⟨?_, fun hall => absurd hall hnot⟩, fun _ => ⟨key, ?_⟩⟩
    · rintro ⟨rest, hrest⟩
      simp [producerMain, hv] at hrest
    · simp [producerMain, hv]

/-- The producer at an environment with all variables set and at one with an empty
`KAFKA_API_SECRET`, the latter with the map visited in reverse order. -/
theorem producer_validation_witness :
    (∃ rest, producerMain producerEnvOk (producerRequired (producerReadEnv producerEnvOk))
        producerWorldOk =
        ProducerAction.newProducer (Getenv producerEnvOk "BOOTSTRAP_SERVERS")
          (Getenv producerEnvOk "KAFKA_API_KEY") (Getenv producerEnvOk "KAFKA_API_SECRET")
          :: rest) ∧
    (∃ key, producerMain producerEnvEmptySecret
        (producerRequired (producerReadEnv producerEnvEmptySecret)).reverse producerWorldOk =
        [ProducerAction.fatalMissing key]) :=
  ⟨(producer_validation producerEnvOk (producerRequired (producerReadEnv producerEnvOk))
      producerWorldOk (List.Perm.refl _)).1.mpr (by decide),
   (producer_validation producerEnvEmptySecret
      (producerRequired (producerReadEnv producerEnvEmptySecret)).reverse producerWorldOk
      (List.reverse_perm _)).2 ⟨"KAFKA_API_SECRET", by decide, by decide⟩⟩

/-- C3. For every environment and every iteration order of the `required` map, the
consumer goes on to create the Kafka consumer if and only if the eight variables
`BOOTSTRAP_SERVERS`, `TOPIC_NAMES`, `KAFKA_API_KEY`, `KAFKA_API_SECRET`,
`SCHEMA_REGISTRY_URL`, `SCHEMA_REGISTRY_API_KEY`, `SCHEMA_REGISTRY_API_SECRET` and
`CONSUMER_GROUP_ID` are all non-empty; when one is empty or unset the run is the
signal registration followed by the fatal exit, before any consumer, registry client
or deserializer is created; and changing `CONSUMER_AUTO_OFFSET` never changes
whether validation passes. -/
theorem consumer_validation {κ : Type} (env : Env) (order : List (String × String))
    (w : ConsumerWorld κ) (ticks : List Tick)
    (horder : order.Perm (consumerRequired (consumerReadEnv env))) :
    ((∃ rest, consumerMain env order w ticks =
        ConsumerAction.signalNotify ::
        ConsumerAction.newConsumer (Getenv env "BOOTSTRAP_SERVERS")
          (Getenv env "CONSUMER_GROUP_ID") (Getenv env "KAFKA_API_KEY")
          (Getenv env "KAFKA_API_SECRET") (Getenv env "CONSUMER_AUTO_OFFSET") :: rest)
      ↔ ∀ name ∈ consumerRequiredNames, Getenv env name ≠ "") ∧
    ((∃ name ∈ consumerRequiredNames, Getenv env name = "") →
      ∃ key, consumerMain env order w ticks =
        [ConsumerAction.signalNotify, ConsumerAction.fatalMissing key]) ∧
    (∀ (v : String) (order' : List (String × String)),
      order'.Perm (consumerRequired (consumerReadEnv (Setenv env "CONSUMER_AUTO_OFFSET" v))) →
      (validate order' = none ↔ validate order = none)) := by
  have hiff : validate order = none ↔ ∀ name ∈ consumerRequiredNames, Getenv env name ≠ "" :=
    (validate_perm_none horder).trans (consumerRequired_valid_iff env)
  have hauto : ∀ (v : String) (order' : List (String × String)),
      order'.Perm (consumerRequired (consumerReadEnv (Setenv env "CONSUMER_AUTO_OFFSET" v))) →
      (validate order' = none ↔ validate order = none) := by
    intro v order' h'
    have heq : consumerRequired (consumerReadEnv (Setenv env "CONSUMER_AUTO_OFFSET" v)) =
        consumerRequired (consumerReadEnv env) := by
      simp only [consumerRequired, consumerReadEnv]
      repeat rw [Getenv_Setenv_ne env "CONSUMER_AUTO_OFFSET" v _ (by decide)]
    rw [heq] at h'
    exact (validate_perm_none h').trans (validate_perm_none horder).symm
  refine ⟨?_, ?_, hauto⟩
  · constructor
    · rintro ⟨rest, hrest⟩
      cases hv : validate order with
      | none => exact hiff.mp hv
      | some key => simp [consumerMain, hv] at hrest
    · intro hall
      have hv := hiff.mpr hall
      simp only [consumerMain, hv]
      exact ⟨_, rfl⟩
  · rintro ⟨name, hmem, hempty⟩
    have hne : validate order ≠ none := fun hv => hiff.mp hv name hmem hempty
    obtain ⟨key, hkey⟩ := validate_ne_none order hne
    exact ⟨key, by simp [consumerMain, hkey]⟩

/-- The consumer at an environment with all variables set, at one without `TOPIC_NAMES`
with the map visited in reverse order, and with `CONSUMER_AUTO_OFFSET` emptied. -/
theorem consumer_validation_witness :
    (∃ rest, consumerMain consumerEnvOk (consumerRequired (consumerReadEnv consumerEnvOk))
        consumerWorldOk [] =
        ConsumerAction.signalNotify ::
        ConsumerAction.newConsumer (Getenv consumerEnvOk "BOOTSTRAP_SERVERS")
          (Getenv consumerEnvOk "CONSUMER_GROUP_ID") (Getenv consumerEnvOk "KAFKA_API_KEY")
          (Getenv consumerEnvOk "KAFKA_API_SECRET")
          (Getenv consumerEnvOk "CONSUMER_AUTO_OFFSET") :: rest) ∧
    (∃ key, consumerMain consumerEnvNoTopicNames
        (consumerRequired (consumerReadEnv consumerEnvNoTopicNames)).reverse
        consumerWorldOk [] =
        [ConsumerAction.signalNotify, ConsumerAction.fatalMissing key]) ∧
    (validate (consumerRequired
        (consumerReadEnv (Setenv consumerEnvOk "CONSUMER_AUTO_OFFSET" ""))) = none ↔
      validate (consumerRequired (consumerReadEnv consumerEnvOk)) = none) :=
  ⟨(consumer_validation consumerEnvOk (consumerRequired (consumerReadEnv consumerEnvOk))
      consumerWorldOk [] (List.Perm.refl _)).1.mpr (by decide),
   (consumer_validation consumerEnvNoTopicNames
      (consumerRequired (consumerReadEnv consumerEnvNoTopicNames)).reverse consumerWorldOk []
      (List.reverse_perm _)).2.1 ⟨"TOPIC_NAMES", by decide, by decide⟩,
   (consumer_validation consumerEnvOk (consumerRequired (consumerReadEnv consumerEnvOk))
      consumerWorldOk [] (List.Perm.refl _)).2.2 "" _ (List.Perm.refl _)⟩

/-- C4, evaluated on the code. With `TOPIC_NAMES` unset and every other variable set
(`TOPIC_NAME` included), for every iteration order of the `required` map the consumer
stops with `Missing required environment variable: TOPIC_NAME`. That name is not among
the names the consumer passes to `os.Getenv`, and the variable of that name is not
empty; the variable that was read and found empty is `TOPIC_NAMES`. -/
theorem consumer_diagnostic_names_unread_variable {κ : Type} (order : List (String × String))
    (w : ConsumerWorld κ) (ticks : List Tick)
    (horder : order.Perm (consumerRequired (consumerReadEnv consumerEnvNoTopicNames))) :
    consumerMain consumerEnvNoTopicNames order w ticks =
        [ConsumerAction.signalNotify, ConsumerAction.fatalMissing "TOPIC_NAME"] ∧
      "TOPIC_NAME" ∉ consumerReadNames ∧
      Getenv consumerEnvNoTopicNames "TOPIC_NAME" ≠ "" ∧
      "TOPIC_NAMES" ∈ consumerReadNames ∧
      Getenv consumerEnvNoTopicNames "TOPIC_NAMES" = "" := by
  refine ⟨?_, by decide, by decide, by decide, by decide⟩
  have hne : validate order ≠ none := by
    intro hnone
    have h2 := (validate_perm_none horder).mp hnone
    revert h2
    decide
  obtain ⟨key, hkey⟩ := validate_ne_none order hne
  have hmem := validate_perm_some horder key hkey
  have hk : key = "TOPIC_NAME" := by
    simpa [consumerRequired, consumerReadEnv, consumerEnvNoTopicNames, Getenv,
      List.lookup] using hmem
  subst hk
  simp [consumerMain, hkey]

/-- The diagnostic with the map visited in source order. -/
theorem consumer_diagnostic_names_unread_variable_witness :
    consumerMain consumerEnvNoTopicNames
        (consumerRequired (consumerReadEnv consumerEnvNoTopicNames)) consumerWorldOk [] =
        [ConsumerAction.signalNotify, ConsumerAction.fatalMissing "TOPIC_NAME"] ∧
      "TOPIC_NAME" ∉ consumerReadNames ∧
      Getenv consumerEnvNoTopicNames "TOPIC_NAME" ≠ "" ∧
      "TOPIC_NAMES" ∈ consumerReadNames ∧
      Getenv consumerEnvNoTopicNames "TOPIC_NAMES" = "" :=
  consumer_diagnostic_names_unread_variable
    (consumerRequired (consumerReadEnv consumerEnvNoTopicNames)) consumerWorldOk []
    (List.Perm.refl _)

/-! ## `strings.Split` -/

theorem Index_eq_none {sep : Char} : ∀ (s : List Char), Index s sep = none → sep ∉ s
  | [], _ => by simp
  | c :: cs, h => by
    by_cases hc : c = sep
    · simp [Index, hc] at h
    · simp only [Index, hc, if_false, Option.map_eq_none'] at h
      have ih := Index_eq_none cs h
      simp only [List.mem_cons, not_or]
      exact ⟨fun e => hc e.symm, ih⟩

theorem Index_eq_some {sep : Char} : ∀ (s : List Char) (m : Nat), Index s sep = some m →
    sep ∉ s.take m ∧ s = s.take m ++ sep :: s.drop (m + 1)
  | [], m, h => by simp [Index] at h
  | c :: cs, m, h => by
    by_cases hc : c = sep
    · simp only [Index, hc, if_true, Option.some.injEq] at h
      subst h
      simp [hc]
    · simp only [Index, hc, if_false, Option.map_eq_some'] at h
      obtain ⟨k, hk, rfl⟩ := h
      obtain ⟨h1, h2⟩ := Index_eq_some cs k hk
      refine ⟨?_, ?_⟩
      · simp only [List.take_succ_cons, List.mem_cons, not_or]
        exact ⟨fun e => hc e.symm, h1⟩
      · simp only [List.take_succ_cons, List.drop_succ_cons, List.cons_append]
        exact congrArg _ h2

theorem genSplitLoop_spec (sep : Char) : ∀ (n : Nat) (s : List Char), Count s sep = n →
    ∃ a rest, genSplitLoop sep n s = a :: rest ∧ rest.length = n ∧ sep ∉ a ∧
      (∀ p ∈ rest, sep ∉ p) ∧ s = a ++ joinTail [sep] rest
  | 0, s, h => by
    refine ⟨s, [], rfl, rfl, ?_, by simp, by simp [joinTail]⟩
    exact List.count_eq_zero.mp h
  | n + 1, s, h => by
    cases hi : Index s sep with
    | none =>
      have := List.count_eq_zero.mpr (Index_eq_none s hi)
      simp only [Count] at h
      omega
    | some m =>
      obtain ⟨h1, h2⟩ := Index_eq_some s m hi
      have hcount : Count (s.drop (m + 1)) sep = n := by
        have h3 : List.count sep s =
            List.count sep (s.take m) + (List.count sep (s.drop (m + 1)) + 1) := by
          conv_lhs => rw [h2]
          rw [List.count_append, List.count_cons_self]
        have h4 := List.count_eq_zero.mpr h1
        simp only [Count] at h ⊢
        omega
      obtain ⟨a, rest, e, hl, ha, hr, hs⟩ := genSplitLoop_spec sep n (s.drop (m + 1)) hcount
      refine ⟨s.take m, a :: rest, ?_, by simp [hl], h1, ?_, ?_⟩
      · simp only [genSplitLoop, hi, e]
      · intro p hp
        rcases List.mem_cons.mp hp with rfl | hp
        · exact ha
        · exact hr p hp
      · conv_lhs => rw [h2, hs]
        simp [joinTail]

theorem genSplit_spec (sep : Char) (s : List Char) :
    ∃ a rest, genSplit s sep = a :: rest ∧ rest.length = Count s sep ∧ sep ∉ a ∧
      (∀ p ∈ rest, sep ∉ p) ∧ s = a ++ joinTail [sep] rest := by
  have hle : Count s sep ≤ s.length := List.count_le_length sep s
  have hn : ¬ (Count s sep + 1 > s.length + 1) := by omega
  simp only [genSplit, hn, if_false, Nat.add_sub_cancel]
  exact genSplitLoop_spec sep (Count s sep) s rfl

theorem foldl_Join_data (sep : String) : ∀ (rest : List String) (a : String),
    (rest.foldl (fun b s => b ++ sep ++ s) a).data =
      a.data ++ joinTail sep.data (rest.map String.data)
  | [], a => by simp [joinTail]
  | p :: ps, a => by
    simp only [List.foldl_cons, List.map_cons, joinTail]
    rw [foldl_Join_data sep ps (a ++ sep ++ p)]
    simp [String.data_append, List.append_assoc]

theorem Join_cons_data (sep a : String) (rest : List String) :
    (Join (a :: rest) sep).data = a.data ++ joinTail sep.data (rest.map String.data) := by
  cases rest with
  | nil => simp [Join, joinTail]
  | cons b bs => simp only [Join]; exact foldl_Join_data sep (b :: bs) a

theorem Split_spec (s : String) (sep : Char) :
    Split s sep ≠ [] ∧ (Split s sep).length = Count s.data sep + 1 ∧
      (∀ t ∈ Split s sep, sep ∉ t.data) ∧ Join (Split s sep) (String.mk [sep]) = s := by
  obtain ⟨a, rest, e, hl, ha, hr, hs⟩ := genSplit_spec sep s.data
  refine ⟨by simp [Split, e], by simp [Split, e, hl], ?_, ?_⟩
  · intro t ht
    simp only [Split, e, List.map_cons, List.mem_cons, List.mem_map] at ht
    rcases ht with rfl | ⟨p, hp, rfl⟩
    · exact ha
    · exact hr p hp
  · apply String.ext
    simp only [Split, e, List.map_cons, Join_cons_data, List.map_map]
    have hid : (String.data ∘ String.mk) = (id : List Char → List Char) := rfl
    rw [hid, List.map_id]
    exact hs.symm

/-! ## The consumer loop -/

theorem handleMessage_fst {κ : Type} (w : ConsumerWorld κ) (registry : List MessageType)
    (d : κ) (e : Message) :
    (handleMessage w registry d e).1 =
      ConsumerAction.deserialize e.TopicPartition.Topic e.Value ::
      (match (w.deserialize registry d e.TopicPartition.Topic e.Value).1.err with
        | some err => ConsumerAction.printFailed err
        | none => ConsumerAction.printMessage e.TopicPartition
            (w.deserialize registry d e.TopicPartition.Topic e.Value).1.value) ::
      headerOutput e := rfl

theorem handleMessage_bodyAction {κ : Type} (w : ConsumerWorld κ) (registry : List MessageType)
    (d : κ) (e : Message) : ∀ a ∈ (handleMessage w registry d e).1, bodyAction a = true := by
  intro a ha
  rw [handleMessage_fst] at ha
  simp only [List.mem_cons, headerOutput] at ha
  rcases ha with rfl | rfl | ha
  · rfl
  · cases (w.deserialize registry d e.TopicPartition.Topic e.Value).1.err <;> rfl
  · cases hh : e.Headers with
    | none => simp [hh] at ha
    | some h =>
      simp only [hh, List.mem_singleton] at ha
      subst ha
      rfl

/-- What one pass of the loop body adds to the output. -/
theorem loopBody_out {κ : Type} (w : ConsumerWorld κ) (s : LoopState κ) (t : Tick) :
    ∃ ext, (loopBody w s t).out = s.out ++ ext ∧ (∀ a ∈ ext, bodyAction a = true) ∧
      (loopBody w s t).registry = s.registry ∧
      (∀ ev, t = Tick.poll ev → (loopBody w s t).run = s.run ∧ pollCount ext = 1) ∧
      (∀ sig, t = Tick.signal sig →
        (loopBody w s t).run = false ∧ ext = [ConsumerAction.printSignal sig]) := by
  cases t with
  | signal sig =>
    refine ⟨[ConsumerAction.printSignal sig], rfl, ?_, rfl, ?_, ?_⟩
    · simp [bodyAction]
    · intro ev h
      cases h
    · intro sig' h
      cases h
      exact ⟨rfl, rfl⟩
  | poll ev =>
    cases ev with
    | none =>
      refine ⟨[ConsumerAction.poll], rfl, ?_, rfl, ?_, ?_⟩
      · simp [bodyAction]
      · intro ev h
        exact ⟨rfl, rfl⟩
      · intro sig h
        cases h
    | some ev =>
      cases ev with
      | message e =>
        refine ⟨ConsumerAction.poll :: (handleMessage w s.registry s.deser e).1, rfl, ?_, rfl,
          ?_, ?_⟩
        · intro a ha
          rcases List.mem_cons.mp ha with rfl | ha
          · rfl
          · exact handleMessage_bodyAction w s.registry s.deser e a ha
        · intro ev h
          refine ⟨rfl, ?_⟩
          rw [handleMessage_fst]
          cases (w.deserialize s.registry s.deser e.TopicPartition.Topic e.Value).1.err <;>
            cases hh : e.Headers <;> simp [pollCount, headerOutput, hh]
        · intro sig h
          cases h
      | error code text =>
        refine ⟨[ConsumerAction.poll, ConsumerAction.printError code text], rfl, ?_, rfl,
          ?_, ?_⟩
        · simp [bodyAction]
        · intro ev h
          exact ⟨rfl, rfl⟩
        · intro sig h
          cases h
      | other text =>
        refine ⟨[ConsumerAction.poll, ConsumerAction.printIgnored text], rfl, ?_, rfl,
          ?_, ?_⟩
        · simp [bodyAction]
        · intro ev h
          exact ⟨rfl, rfl⟩
        · intro sig h
          cases h

theorem pollCount_append (l₁ l₂ : List ConsumerAction) :
    pollCount (l₁ ++ l₂) = pollCount l₁ + pollCount l₂ := by
  induction l₁ with
  | nil => simp [pollCount]
  | cons a l ih =>
    cases a <;> simp [pollCount, ih]
    omega

/-- The loop from a state with `run` true: what it adds to the output is made of body
actions only; `run` ends false exactly when a signal was among the passes consumed,
and then the signal line is in the output; with polls only every pass polls. -/
theorem runLoop_spec {κ : Type} (w : ConsumerWorld κ) :
    ∀ (ticks : List Tick) (s : LoopState κ), s.run = true →
    ∃ ext, (runLoop w s ticks).out = s.out ++ ext ∧ (∀ a ∈ ext, bodyAction a = true) ∧
      ((runLoop w s ticks).run = false →
        ∃ sig, ConsumerAction.printSignal sig ∈ ext ∧ Tick.signal sig ∈ ticks) ∧
      ((∃ sig, Tick.signal sig ∈ ticks) → (runLoop w s ticks).run = false) ∧
      ((∀ t ∈ ticks, ∃ ev, t = Tick.poll ev) → pollCount ext = ticks.length)
  | [], s, hs => ⟨[], by simp [runLoop], by simp, by simp [runLoop, hs], by simp,
      by simp [pollCount]⟩
  | t :: ts, s, hs => by
    obtain ⟨e1, ho, hb, _, hpoll, hsig⟩ := loopBody_out w s t
    simp only [runLoop, hs, if_true]
    cases t with
    | signal sig =>
      obtain ⟨hrun, he1⟩ := hsig sig rfl
      have hstop : runLoop w (loopBody w s (Tick.signal sig)) ts =
          loopBody w s (Tick.signal sig) := by
        cases ts with
        | nil => rfl
        | cons t' ts' => simp [runLoop, hrun]
      rw [hstop]
      refine ⟨e1, ho, hb, ?_, fun _ => hrun, ?_⟩
      · intro _
        exact ⟨sig, by simp [he1], by simp⟩
      · intro hall
        obtain ⟨ev, hev⟩ := hall (Tick.signal sig) (by simp)
        cases hev
    | poll ev =>
      obtain ⟨hrun, hpc⟩ := hpoll ev rfl
      obtain ⟨e2, ho2, hb2, hf, hsg, hp⟩ :=
        runLoop_spec w ts (loopBody w s (Tick.poll ev)) (hrun.trans hs)
      refine ⟨e1 ++ e2, by rw [ho2, ho, List.append_assoc], ?_, ?_, ?_, ?_⟩
      · intro a ha
        rcases List.mem_append.mp ha with ha | ha
        · exact hb a ha
        · exact hb2 a ha
      · intro hfalse
        obtain ⟨sig, h1, h2⟩ := hf hfalse
        exact ⟨sig, List.mem_append_right _ h1, List.mem_cons_of_mem _ h2⟩
      · rintro ⟨sig, hmem⟩
        rcases List.mem_cons.mp hmem with h | h
        · cases h
        · exact hsg ⟨sig, h⟩
      · intro hall
        rw [pollCount_append, hpc, hp (fun t ht => hall t (List.mem_cons_of_mem _ ht))]
        simp [Nat.add_comm]

theorem consumerLoop_eq {κ : Type} (w : ConsumerWorld κ) (registry : List MessageType)
    (ticks : List Tick) :
    consumerLoop w registry ticks =
      (runLoop w (loopStart w registry) ticks).out ++
        if (runLoop w (loopStart w registry) ticks).run then []
        else [ConsumerAction.printClosing, ConsumerAction.close] := rfl

/-- A run of the consumer either ends before the loop, and then holds no action of
the loop body and no closing, or is the full setup followed by the loop. -/
theorem consumerMain_shape {κ : Type} (env : Env) (order : List (String × String))
    (w : ConsumerWorld κ) (ticks : List Tick) :
    (∀ a ∈ consumerMain env order w ticks, bodyAction a = false ∧
        a ≠ ConsumerAction.close ∧ a ≠ ConsumerAction.printClosing) ∨
    (validate order = none ∧
      consumerMain env order w ticks =
        consumerSetup env ++ consumerLoop w (RegisterMessage [] MessageType.User) ticks) := by
  unfold consumerMain
  cases hv : validate order with
  | some key => left; simp [bodyAction]
  | none =>
    cases h1 : w.newConsumerErr
    case true => left; simp [bodyAction]
    cases h2 : w.newClientErr
    case true => left; simp [bodyAction]
    cases h3 : w.newDeserializerErr
    case true => left; simp [bodyAction]
    cases h4 : w.subscribeErr
    case true => left; simp [bodyAction]
    right
    simp [consumerSetup]

theorem consumerLoop_actions {κ : Type} (w : ConsumerWorld κ) (registry : List MessageType)
    (ticks : List Tick) : ∀ a ∈ consumerLoop w registry ticks,
      bodyAction a = true ∨ a = ConsumerAction.printClosing ∨ a = ConsumerAction.close := by
  intro a ha
  obtain ⟨ext, ho, hb, _, _, _⟩ := runLoop_spec w ticks (loopStart w registry) rfl
  rw [consumerLoop_eq, ho] at ha
  simp only [loopStart, List.nil_append, List.mem_append] at ha
  rcases ha with ha | ha
  · exact Or.inl (hb a ha)
  · right
    cases hr : (runLoop w (loopStart w registry) ticks).run
    · simp only [loopStart] at hr
      simpa [hr] using ha
    · simp only [loopStart] at hr
      simp [hr] at ha

theorem consumerMain_subscribe {κ : Type} (env : Env) (order : List (String × String))
    (w : ConsumerWorld κ) (ticks : List Tick) (topics : List String)
    (h : ConsumerAction.subscribeTopics topics ∈ consumerMain env order w ticks) :
    topics = Split (Getenv env "TOPIC_NAMES") ',' := by
  have hloop : ConsumerAction.subscribeTopics topics ∉
      consumerLoop w (RegisterMessage [] MessageType.User) ticks := by
    intro hmem
    rcases consumerLoop_actions w _ ticks _ hmem with h1 | h1 | h1
    · simp [bodyAction] at h1
    · cases h1
    · cases h1
  unfold consumerMain at h
  cases hv : validate order with
  | some key => simp [hv] at h
  | none =>
    cases h1 : w.newConsumerErr
    case true => simp [hv, h1] at h
    cases h2 : w.newClientErr
    case true => simp [hv, h1, h2] at h
    cases h3 : w.newDeserializerErr
    case true => simp [hv, h1, h2, h3] at h
    cases h4 : w.subscribeErr
    case true =>
      simp [hv, h1, h2, h3, h4] at h
      simpa [consumerReadEnv] using h
    simp [hv, h1, h2, h3, h4, hloop] at h
    simpa [consumerReadEnv] using h

/-! ## Claims about the consumer -/

/-- C6. In every run of the consumer, whatever the environment, the iteration order,
the answers of the library and the events polled, every call of `deser.Deserialize`
comes after the registration of the `User` type: the part of the trace before a
`Deserialize` call always holds `RegisterMessage(User)`. -/
theorem registration_precedes_deserialization {κ : Type} (env : Env)
    (order : List (String × String)) (w : ConsumerWorld κ) (ticks : List Tick)
    (pre post : List ConsumerAction) (topic : String) (payload : Bytes)
    (h : consumerMain env order w ticks =
      pre ++ ConsumerAction.deserialize topic payload :: post) :
    ConsumerAction.registerMessage MessageType.User ∈ pre := by
  rcases consumerMain_shape env order w ticks with hshort | ⟨_, hfull⟩
  · have hmem : ConsumerAction.deserialize topic payload ∈ consumerMain env order w ticks := by
      rw [h]; simp
    have := (hshort _ hmem).1
    simp [bodyAction] at this
  · rw [hfull] at h
    rcases List.append_eq_append_iff.mp h with ⟨a', hpre, _⟩ | ⟨c', hsetup, hrest⟩
    · rw [hpre]
      simp [consumerSetup]
    · cases c' with
      | nil =>
        rw [List.append_nil] at hsetup
        rw [← hsetup]
        simp [consumerSetup]
      | cons x xs =>
        simp only [List.cons_append, List.cons.injEq] at hrest
        have hx : ConsumerAction.deserialize topic payload ∈ consumerSetup env := by
          rw [hsetup, ← hrest.1]; simp
        simp [consumerSetup] at hx

/-- C7. In the message branch the deserializer is called exactly once, with the
topic name and the value of the received message; the call and the state it leaves
are the same for any other message with that topic and value, whatever its headers,
key, partition and offset; and when the headers are non-nil they are printed exactly
as received, whatever `Deserialize` answered. -/
theorem headers_pass_through {κ : Type} (w : ConsumerWorld κ) (registry : List MessageType)
    (d : κ) (e : Message) :
    deserializeCalls (handleMessage w registry d e).1 = [(e.TopicPartition.Topic, e.Value)] ∧
    (handleMessage w registry d e).2 =
      (w.deserialize registry d e.TopicPartition.Topic e.Value).2 ∧
    (∀ e' : Message, e'.TopicPartition.Topic = e.TopicPartition.Topic → e'.Value = e.Value →
      deserializeCalls (handleMessage w registry d e').1 =
        deserializeCalls (handleMessage w registry d e).1 ∧
      (handleMessage w registry d e').2 = (handleMessage w registry d e).2) ∧
    (∀ h, e.Headers = some h → printedHeaders (handleMessage w registry d e).1 = [h]) ∧
    (e.Headers = none → printedHeaders (handleMessage w registry d e).1 = []) := by
  have hcalls : ∀ e : Message, deserializeCalls (handleMessage w registry d e).1 =
      [(e.TopicPartition.Topic, e.Value)] := by
    intro e
    rw [handleMessage_fst]
    cases (w.deserialize registry d e.TopicPartition.Topic e.Value).1.err <;>
      cases hh : e.Headers <;> simp [deserializeCalls, headerOutput, hh]
  refine ⟨hcalls e, rfl, ?_, ?_, ?_⟩
  · intro e' ht hv
    refine ⟨by rw [hcalls e', hcalls e, ht, hv], ?_⟩
    simp only [handleMessage, ht, hv]
  · intro h hh
    rw [handleMessage_fst]
    cases (w.deserialize registry d e.TopicPartition.Topic e.Value).1.err <;>
      simp [printedHeaders, headerOutput, hh]
  · intro hh
    rw [handleMessage_fst]
    cases (w.deserialize registry d e.TopicPartition.Topic e.Value).1.err <;>
      simp [printedHeaders, headerOutput, hh]

/-- C8. In the message branch, when `Deserialize` returns an error the output is the
`Failed to deserialize payload` line (followed by the headers, if any) and holds no
`Message on` line, whatever value came with the error; when it returns no error the
output is the `Message on` line with exactly the returned value and holds no failure
line. -/
theorem no_output_of_failed_decode {κ : Type} (w : ConsumerWorld κ)
    (registry : List MessageType) (d : κ) (e : Message) :
    (∀ err, (w.deserialize registry d e.TopicPartition.Topic e.Value).1.err = some err →
      (handleMessage w registry d e).1 =
        ConsumerAction.deserialize e.TopicPartition.Topic e.Value ::
          ConsumerAction.printFailed err :: headerOutput e ∧
      ∀ tp v, ConsumerAction.printMessage tp v ∉ (handleMessage w registry d e).1) ∧
    ((w.deserialize registry d e.TopicPartition.Topic e.Value).1.err = none →
      (handleMessage w registry d e).1 =
        ConsumerAction.deserialize e.TopicPartition.Topic e.Value ::
          ConsumerAction.printMessage e.TopicPartition
            (w.deserialize registry d e.TopicPartition.Topic e.Value).1.value ::
          headerOutput e ∧
      ∀ err, ConsumerAction.printFailed err ∉ (handleMessage w registry d e).1) := by
  constructor
  · intro err herr
    rw [handleMessage_fst, herr]
    refine ⟨rfl, ?_⟩
    intro tp v
    cases hh : e.Headers <;> simp [headerOutput, hh]
  · intro herr
    rw [handleMessage_fst, herr]
    refine ⟨rfl, ?_⟩
    intro err
    cases hh : e.Headers <;> simp [headerOutput, hh]

/-- C9. A pass of the loop that polls, whatever the poll returns (nil, a message that
deserialises or not, a `kafka.Error`, any other event), leaves `run` as it was; when
all passes are polls `run` stays true, every pass polls and the consumer is not
closed; `run` ends false exactly when a signal is among the passes; and a `Close` in
the trace is always preceded by the line of a signal that was received. -/
theorem loop_stops_only_on_signal {κ : Type} (w : ConsumerWorld κ)
    (registry : List MessageType) (s : LoopState κ) (ticks : List Tick) :
    (∀ ev, (loopBody w s (Tick.poll ev)).run = s.run) ∧
    ((∀ t ∈ ticks, ∃ ev, t = Tick.poll ev) →
      (runLoop w (loopStart w registry) ticks).run = true ∧
      pollCount (consumerLoop w registry ticks) = ticks.length ∧
      ConsumerAction.close ∉ consumerLoop w registry ticks) ∧
    ((runLoop w (loopStart w registry) ticks).run = false ↔ ∃ sig, Tick.signal sig ∈ ticks) ∧
    (∀ pre post, consumerLoop w registry ticks = pre ++ ConsumerAction.close :: post →
      ∃ sig, ConsumerAction.printSignal sig ∈ pre ∧ Tick.signal sig ∈ ticks) := by
  obtain ⟨ext, ho, hb, hf, hsg, hp⟩ := runLoop_spec w ticks (loopStart w registry) rfl
  have hout : (runLoop w (loopStart w registry) ticks).out = ext := by
    rw [ho]; rfl
  have hiff : (runLoop w (loopStart w registry) ticks).run = false ↔
      ∃ sig, Tick.signal sig ∈ ticks :=
    ⟨fun h => (hf h).imp fun _ hx => hx.2, hsg⟩
  refine ⟨fun ev => ((loopBody_out w s (Tick.poll ev)).choose_spec.2.2.2.1 ev rfl).1, ?_,
    hiff, ?_⟩
  · intro hall
    have hrun : (runLoop w (loopStart w registry) ticks).run = true := by
      cases hr : (runLoop w (loopStart w registry) ticks).run
      · obtain ⟨sig, hsig⟩ := hiff.mp hr
        obtain ⟨ev, hev⟩ := hall _ hsig
        cases hev
      · rfl
    refine ⟨hrun, ?_, ?_⟩
    · rw [consumerLoop_eq, hrun, hout]
      simpa using hp hall
    · rw [consumerLoop_eq, hrun, hout]
      intro hmem
      have := hb _ (by simpa using hmem)
      simp [bodyAction] at this
  · intro pre post hsplit
    rw [consumerLoop_eq, hout] at hsplit
    cases hr : (runLoop w (loopStart w registry) ticks).run
    · obtain ⟨sig, h1, h2⟩ := hf hr
      refine ⟨sig, ?_, h2⟩
      rw [hr] at hsplit
      simp only [Bool.false_eq_true, if_false] at hsplit
      rcases List.append_eq_append_iff.mp hsplit with ⟨a', hpre, _⟩ | ⟨c', hext, hrest⟩
      · rw [hpre]
        exact List.mem_append_left _ h1
      · cases c' with
        | nil =>
          rw [List.append_nil] at hext
          rw [← hext]
          exact h1
        | cons x xs =>
          simp only [List.cons_append, List.cons.injEq] at hrest
          have hx : ConsumerAction.close ∈ ext := by
            rw [hext, ← hrest.1]; simp
          have := hb _ hx
          simp [bodyAction] at this
    · rw [hr] at hsplit
      simp only [if_true, List.append_nil] at hsplit
      have hx : ConsumerAction.close ∈ ext := by
        rw [hsplit]; simp
      have := hb _ hx
      simp [bodyAction] at this

/-- C10. The list the consumer subscribes to is `strings.Split(TOPIC_NAMES, ",")`: it
is non-empty, has one element more than `TOPIC_NAMES` has commas, none of its
elements holds a comma, and joining them with `","` gives `TOPIC_NAMES` back. -/
theorem topics_from_TOPIC_NAMES {κ : Type} (env : Env) (order : List (String × String))
    (w : ConsumerWorld κ) (ticks : List Tick) (topics : List String)
    (hsub : ConsumerAction.subscribeTopics topics ∈ consumerMain env order w ticks) :
    topics ≠ [] ∧ topics.length = Count (Getenv env "TOPIC_NAMES").data ',' + 1 ∧
      (∀ t ∈ topics, ',' ∉ t.data) ∧ Join topics "," = Getenv env "TOPIC_NAMES" := by
  rw [consumerMain_subscribe env order w ticks topics hsub]
  exact Split_spec (Getenv env "TOPIC_NAMES") ','

/-- A run that polls one message: the trace and the position of the registration. -/
theorem registration_precedes_deserialization_witness :
    consumerMain consumerEnvOk (consumerRequired (consumerReadEnv consumerEnvOk))
        consumerWorldOk [Tick.poll (some (Event.message messageGood))] =
      (consumerSetup consumerEnvOk ++ [ConsumerAction.poll]) ++
        ConsumerAction.deserialize "users" [0, 0, 0, 0, 7, 0] ::
        [ConsumerAction.printMessage messageGood.TopicPartition
            (some (ProtoMessage.user
              { Name := "First user", FavoriteNumber := 42, FavoriteColor := "blue",
                ExtraData := none })),
         ConsumerAction.printHeaders [{ Key := "myTestHeader", Value := [104, 105] }]] ∧
    ConsumerAction.registerMessage MessageType.User ∈
      consumerSetup consumerEnvOk ++ [ConsumerAction.poll] :=
  ⟨by decide, registration_precedes_deserialization consumerEnvOk
    (consumerRequired (consumerReadEnv consumerEnvOk)) consumerWorldOk
    [Tick.poll (some (Event.message messageGood))]
    (consumerSetup consumerEnvOk ++ [ConsumerAction.poll])
    [ConsumerAction.printMessage messageGood.TopicPartition
        (some (ProtoMessage.user
          { Name := "First user", FavoriteNumber := 42, FavoriteColor := "blue",
            ExtraData := none })),
     ConsumerAction.printHeaders [{ Key := "myTestHeader", Value := [104, 105] }]]
    "users" [0, 0, 0, 0, 7, 0] (by decide)⟩

/-- The topic list for `TOPIC_NAMES=users,orders`. -/
theorem topics_from_TOPIC_NAMES_witness :
    ConsumerAction.subscribeTopics ["users", "orders"] ∈
      consumerMain consumerEnvOk (consumerRequired (consumerReadEnv consumerEnvOk))
        consumerWorldOk [] ∧
    (["users", "orders"] ≠ [] ∧
      ["users", "orders"].length = Count (Getenv consumerEnvOk "TOPIC_NAMES").data ',' + 1 ∧
      (∀ t ∈ ["users", "orders"], ',' ∉ t.data) ∧
      Join ["users", "orders"] "," = Getenv consumerEnvOk "TOPIC_NAMES") :=
  ⟨by decide, topics_from_TOPIC_NAMES consumerEnvOk
    (consumerRequired (consumerReadEnv consumerEnvOk)) consumerWorldOk [] ["users", "orders"]
    (by decide)⟩

/-! ## Registered and encoded types -/

theorem registeredBefore_eq_nil (l : List ConsumerAction)
    (h : ∀ t, ConsumerAction.registerMessage t ∉ l) : registeredBefore l = [] := by
  induction l with
  | nil => rfl
  | cons a l ih =>
    have ih' := ih (fun t ht => h t (List.mem_cons_of_mem _ ht))
    cases a <;> first
      | exact absurd (List.mem_cons_self _ _) (h _)
      | rfl
      | simpa [registeredBefore] using ih'

theorem consumerLoop_registeredBefore {κ : Type} (w : ConsumerWorld κ)
    (registry : List MessageType) (ticks : List Tick) :
    registeredBefore (consumerLoop w registry ticks) = [] := by
  apply registeredBefore_eq_nil
  intro t ht
  rcases consumerLoop_actions w registry ticks _ ht with h | h | h
  · simp [bodyAction] at h
  · cases h
  · cases h

theorem consumerMain_registeredBefore {κ : Type} (env : Env) (order : List (String × String))
    (w : ConsumerWorld κ) (ticks : List Tick) :
    (registeredBefore (consumerMain env order w ticks) = [] ∧
      deserializeCalls (consumerMain env order w ticks) = []) ∨
    registeredBefore (consumerMain env order w ticks) = [MessageType.User] := by
  have hloop := consumerLoop_registeredBefore w (RegisterMessage [] MessageType.User) ticks
  unfold consumerMain
  cases hv : validate order with
  | some key => left; simp [registeredBefore, deserializeCalls]
  | none =>
    cases h1 : w.newConsumerErr
    case true => left; simp [registeredBefore, deserializeCalls]
    cases h2 : w.newClientErr
    case true => left; simp [registeredBefore, deserializeCalls]
    cases h3 : w.newDeserializerErr
    case true => left; simp [registeredBefore, deserializeCalls]
    cases h4 : w.subscribeErr
    case true => right; simp [registeredBefore]
    right
    simp [registeredBefore, hloop]

theorem producerMain_serialize (env : Env) (order : List (String × String)) (w : ProducerWorld)
    (topic : String) (value : User)
    (h : ProducerAction.serialize topic value ∈ producerMain env order w) :
    ∃ extra, anyNew w.marshal producerPrefs = some extra ∧ value = producerUser extra := by
  unfold producerMain at h
  cases hv : validate order with
  | some key => simp [hv] at h
  | none =>
    cases h1 : w.newProducerErr
    case true => simp [hv, h1] at h
    cases h2 : w.newClientErr
    case true => simp [hv, h1, h2] at h
    cases h3 : w.newSerializerErr
    case true => simp [hv, h1, h2, h3] at h
    cases h4 : anyNew w.marshal producerPrefs with
    | none => simp [hv, h1, h2, h3, h4] at h
    | some extra =>
      refine ⟨extra, rfl, ?_⟩
      cases h5 : w.serialize (producerReadEnv env).topic (producerUser extra) with
      | none =>
        simp [hv, h1, h2, h3, h4, h5] at h
        exact h.2
      | some payload =>
        cases h6 : w.produceErr
        · cases h7 : w.deliveryErr <;> simp [hv, h1, h2, h3, h4, h5, h6, h7] at h <;>
            exact h.2
        · simp [hv, h1, h2, h3, h4, h5, h6] at h
          exact h.2

/-- C5 as stated fails: in a run of the producer the payload holds a boxed
`Preferences`, while in a run of the consumer that deserialises a message the types
registered before the first `Deserialize` call do not include `Preferences`. -/
theorem preferences_not_registered :
    MessageType.Preferences ∈ encodedTypes
        (producerMain producerEnvOk (producerRequired (producerReadEnv producerEnvOk))
          producerWorldOk) ∧
    deserializeCalls
        (consumerMain consumerEnvOk (consumerRequired (consumerReadEnv consumerEnvOk))
          consumerWorldOk [Tick.poll (some (Event.message messageGood))]) ≠ [] ∧
    MessageType.Preferences ∉ registeredBefore
        (consumerMain consumerEnvOk (consumerRequired (consumerReadEnv consumerEnvOk))
          consumerWorldOk [Tick.poll (some (Event.message messageGood))]) ∧
    ¬ (∀ t ∈ encodedTypes
          (producerMain producerEnvOk (producerRequired (producerReadEnv producerEnvOk))
            producerWorldOk),
        t ∈ registeredBefore
          (consumerMain consumerEnvOk (consumerRequired (consumerReadEnv consumerEnvOk))
            consumerWorldOk [Tick.poll (some (Event.message messageGood))])) := by
  decide

/-- C5, amended. In every run of the consumer the types registered before the first
`Deserialize` call are exactly `User` whenever `Deserialize` is called at all, and
never anything but `User`; in every run of the producer each serialised message is a
`User` whose `ExtraData` boxes a `Preferences`. So the registry holds the top-level
type of every produced payload and not the boxed `Preferences`. -/
theorem consumer_registers_user_only {κ : Type} (env : Env) (order : List (String × String))
    (w : ConsumerWorld κ) (ticks : List Tick) (penv : Env)
    (porder : List (String × String)) (pw : ProducerWorld) :
    (deserializeCalls (consumerMain env order w ticks) ≠ [] →
      registeredBefore (consumerMain env order w ticks) = [MessageType.User]) ∧
    (∀ t ∈ registeredBefore (consumerMain env order w ticks), t = MessageType.User) ∧
    (∀ topic value, ProducerAction.serialize topic value ∈ producerMain penv porder pw →
      boxedTypes value = [MessageType.Preferences] ∧
      MessageType.Preferences ∉ registeredBefore (consumerMain env order w ticks)) := by
  have hreg := consumerMain_registeredBefore env order w ticks
  refine ⟨?_, ?_, ?_⟩
  · intro hcalls
    rcases hreg with ⟨_, h⟩ | h
    · exact absurd h hcalls
    · exact h
  · intro t ht
    rcases hreg with ⟨h, _⟩ | h
    · rw [h] at ht; cases ht
    · rw [h] at ht; simpa using ht
  · intro topic value hser
    obtain ⟨extra, hextra, rfl⟩ := producerMain_serialize penv porder pw topic value hser
    refine ⟨?_, ?_⟩
    · simp only [anyNew, Option.map_eq_some'] at hextra
      obtain ⟨b, _, rfl⟩ := hextra
      rfl
    · rcases hreg with ⟨h, _⟩ | h <;> rw [h] <;> simp

/-- The registered and the boxed types in concrete runs of the two programs. -/
theorem consumer_registers_user_only_witness :
    registeredBefore
        (consumerMain consumerEnvOk (consumerRequired (consumerReadEnv consumerEnvOk))
          consumerWorldOk [Tick.poll (some (Event.message messageGood))]) =
      [MessageType.User] ∧
    boxedTypes (producerUser exampleBox) = [MessageType.Preferences] ∧
    MessageType.Preferences ∉ registeredBefore
        (consumerMain consumerEnvOk (consumerRequired (consumerReadEnv consumerEnvOk))
          consumerWorldOk [Tick.poll (some (Event.message messageGood))]) :=
  have h := consumer_registers_user_only consumerEnvOk
    (consumerRequired (consumerReadEnv consumerEnvOk)) consumerWorldOk
    [Tick.poll (some (Event.message messageGood))] producerEnvOk
    (producerRequired (producerReadEnv producerEnvOk)) (serdeProducerWorld exampleRegistry)
  ⟨h.1 (by decide), h.2.2 "users" (producerUser exampleBox) (by decide)⟩

/-- The message branch on a message that fails to decode and on one that decodes. -/
theorem headers_pass_through_witness :
    deserializeCalls (handleMessage consumerWorldOk [MessageType.User] () messageBad).1 =
      [("users", [])] ∧
    printedHeaders (handleMessage consumerWorldOk [MessageType.User] () messageBad).1 =
      [[{ Key := "myTestHeader", Value := [104, 105] }]] ∧
    printedHeaders (handleMessage consumerWorldOk [MessageType.User] () messageGood).1 =
      [[{ Key := "myTestHeader", Value := [104, 105] }]] :=
  ⟨(headers_pass_through consumerWorldOk [MessageType.User] () messageBad).1,
   (headers_pass_through consumerWorldOk [MessageType.User] () messageBad).2.2.2.1 _ rfl,
   (headers_pass_through consumerWorldOk [MessageType.User] () messageGood).2.2.2.1 _ rfl⟩

/-- The output of the message branch for a failed and for a successful decode. -/
theorem no_output_of_failed_decode_witness :
    (handleMessage consumerWorldOk [MessageType.User] () messageBad).1 =
      [ConsumerAction.deserialize "users" [],
       ConsumerAction.printFailed "unknown magic byte",
       ConsumerAction.printHeaders [{ Key := "myTestHeader", Value := [104, 105] }]] ∧
    (handleMessage consumerWorldOk [MessageType.User] () messageGood).1 =
      [ConsumerAction.deserialize "users" [0, 0, 0, 0, 7, 0],
       ConsumerAction.printMessage messageGood.TopicPartition
         (some (ProtoMessage.user
           { Name := "First user", FavoriteNumber := 42, FavoriteColor := "blue",
             ExtraData := none })),
       ConsumerAction.printHeaders [{ Key := "myTestHeader", Value := [104, 105] }]] :=
  ⟨((no_output_of_failed_decode consumerWorldOk [MessageType.User] () messageBad).1
      "unknown magic byte" rfl).1,
   ((no_output_of_failed_decode consumerWorldOk [MessageType.User] () messageGood).2 rfl).1⟩

/-- The loop on three polls, and on a poll followed by a signal. -/
theorem loop_stops_only_on_signal_witness :
    (runLoop consumerWorldOk (loopStart consumerWorldOk [MessageType.User])
        [Tick.poll none, Tick.poll (some (Event.message messageBad)),
         Tick.poll (some (Event.error 1 "broker down"))]).run = true ∧
    pollCount (consumerLoop consumerWorldOk [MessageType.User]
        [Tick.poll none, Tick.poll (some (Event.message messageBad)),
         Tick.poll (some (Event.error 1 "broker down"))]) = 3 ∧
    (runLoop consumerWorldOk (loopStart consumerWorldOk [MessageType.User])
        [Tick.poll none, Tick.signal "interrupt", Tick.poll none]).run = false ∧
    consumerLoop consumerWorldOk [MessageType.User]
        [Tick.poll none, Tick.signal "interrupt", Tick.poll none] =
      [ConsumerAction.poll, ConsumerAction.printSignal "interrupt",
       ConsumerAction.printClosing, ConsumerAction.close] :=
  have h := (loop_stops_only_on_signal consumerWorldOk [MessageType.User]
    (loopStart consumerWorldOk [MessageType.User])
    [Tick.poll none, Tick.poll (some (Event.message messageBad)),
     Tick.poll (some (Event.error 1 "broker down"))]).2.1
    (by
      intro t ht
      simp only [List.mem_cons, List.mem_singleton, List.not_mem_nil, or_false] at ht
      rcases ht with rfl | rfl | rfl <;> exact ⟨_, rfl⟩)
  ⟨h.1, h.2.1,
   (loop_stops_only_on_signal consumerWorldOk [MessageType.User]
    (loopStart consumerWorldOk [MessageType.User])
    [Tick.poll none, Tick.signal "interrupt", Tick.poll none]).2.2.1.mpr
      ⟨"interrupt", by decide⟩,
   by decide⟩

/-! ## Variable-length integers and the wire envelope -/

theorem fromBigEndian32_bigEndian32 (n : Nat) (h : n < 4294967296) :
    fromBigEndian32 (n / 16777216 % 256) (n / 65536 % 256) (n / 256 % 256) (n % 256) = n := by
  unfold fromBigEndian32
  omega

theorem unzigzag_zigzag (i : Int) : unzigzag (zigzag i) = i := by
  unfold unzigzag zigzag
  by_cases h : 0 ≤ i
  · simp only [h, if_true]
    have h1 : 2 * i.toNat % 2 = 0 := by omega
    simp only [h1, if_true]
    omega
  · simp only [h, if_false]
    have h1 : ¬ ((2 * (-i).toNat - 1) % 2 = 0) := by omega
    simp only [h1, if_false]
    omega

theorem readVarint_varintFuel : ∀ (fuel n : Nat) (rest : Bytes), n ≤ fuel →
    readVarint (varintFuel fuel n ++ rest) = some (n, rest)
  | 0, n, rest, h => by
    have hn : n = 0 := by omega
    subst hn
    simp [varintFuel, readVarint]
  | fuel + 1, n, rest, h => by
    by_cases hlt : n < 128
    · simp [varintFuel, readVarint, hlt]
    · have hle : n / 128 ≤ fuel := by omega
      have ih := readVarint_varintFuel fuel (n / 128) rest hle
      have hge : ¬ (n % 128 + 128 < 128) := by omega
      simp only [varintFuel, hlt, if_false, List.cons_append, readVarint, hge, ih]
      congr 2
      omega

theorem readVarint_varint (n : Nat) (rest : Bytes) :
    readVarint (varint n ++ rest) = some (n, rest) :=
  readVarint_varintFuel n n rest (Nat.le_refl n)

theorem varint_length_pos (n : Nat) : 0 < (varint n).length := by
  unfold varint
  cases n with
  | zero => simp [varintFuel]
  | succ k =>
    simp only [varintFuel]
    split <;> simp

theorem readInts_writeInts : ∀ (idx : List Int) (rest : Bytes),
    readInts idx.length (writeInts idx ++ rest) = some (idx, rest)
  | [], rest => by simp [readInts, writeInts]
  | i :: is, rest => by
    simp only [List.length_cons, readInts, writeInts, List.append_assoc, readVarint_varint,
      readInts_writeInts is rest, unzigzag_zigzag]

/-- Reading back a message-index array: every non-empty path is read as written. -/
theorem readIndexes_writeIndexes (idx : List Int) (rest : Bytes) (hne : idx ≠ []) :
    readIndexes (writeIndexes idx ++ rest) = some (idx, rest) := by
  by_cases h0 : idx = [0]
  · subst h0
    simp [writeIndexes, readIndexes, readVarint, unzigzag]
  · have hlen : 0 < idx.length := List.length_pos.mpr hne
    have hnz : ¬ ((idx.length : Int) = 0) := by omega
    have hnn : ¬ ((idx.length : Int) < 0) := by omega
    simp only [writeIndexes, h0, if_false, readIndexes, List.append_assoc, readVarint_varint,
      unzigzag_zigzag, hnz, hnn, Int.toNat_ofNat, readInts_writeInts]

/-! ## UTF-8 -/

theorem readUtf8Char_utf8Nat (n : Nat) (rest : Bytes)
    (hv : n < 55296 ∨ 57343 < n ∧ n < 1114112) :
    readUtf8Char (utf8Nat n ++ rest) = some (Char.ofNat n, rest) := by
  unfold utf8Nat
  by_cases h1 : n < 128
  · simp [h1, readUtf8Char]
  · by_cases h2 : n < 2048
    · have a1 : ¬ (192 + n / 64 < 128) := by omega
      have a2 : ¬ (192 + n / 64 < 192) := by omega
      have a3 : 192 + n / 64 < 224 := by omega
      have a5 : 128 + n % 64 < 192 := by omega
      have a6 : 128 ≤ n := by omega
      have e : n / 64 * 64 + n % 64 = n := by omega
      simp [h1, h2, readUtf8Char, a1, a2, a3, isContinuation, a5, e, a6]
    · by_cases h3 : n < 65536
      · have a1 : ¬ (224 + n / 4096 < 128) := by omega
        have a2 : ¬ (224 + n / 4096 < 192) := by omega
        have a3 : ¬ (224 + n / 4096 < 224) := by omega
        have a4 : 224 + n / 4096 < 240 := by omega
        have a5 : 128 + n / 64 % 64 < 192 := by omega
        have a6 : 128 + n % 64 < 192 := by omega
        have a7 : 2048 ≤ n := by omega
        have a8 : n < 55296 ∨ 57344 ≤ n := by omega
        have e : (n / 4096 * 64 + n / 64 % 64) * 64 + n % 64 = n := by omega
        simp [h1, h2, h3, readUtf8Char, a1, a2, a3, a4, isContinuation, a5, a6, e, a7, a8]
      · have a1 : ¬ (240 + n / 262144 < 128) := by omega
        have a2 : ¬ (240 + n / 262144 < 192) := by omega
        have a3 : ¬ (240 + n / 262144 < 224) := by omega
        have a4 : ¬ (240 + n / 262144 < 240) := by omega
        have a4' : 240 + n / 262144 < 248 := by omega
        have a5 : 128 + n / 4096 % 64 < 192 := by omega
        have a6 : 128 + n / 64 % 64 < 192 := by omega
        have a6' : 128 + n % 64 < 192 := by omega
        have a7 : 65536 ≤ n := by omega
        have a8 : n < 1114112 := by omega
        have e : ((n / 262144 * 64 + n / 4096 % 64) * 64 + n / 64 % 64) * 64 + n % 64 = n := by
          omega
        simp [h1, h2, h3, readUtf8Char, a1, a2, a3, a4, a4', isContinuation, a5, a6, a6', e,
          a7, a8]

theorem utf8Nat_eq_cons (n : Nat) : ∃ b t, utf8Nat n = b :: t := by
  unfold utf8Nat
  split
  · exact ⟨_, _, rfl⟩
  · split
    · exact ⟨_, _, rfl⟩
    · split <;> exact ⟨_, _, rfl⟩

theorem decodeUtf8Fuel_utf8 : ∀ (cs : List Char) (fuel : Nat), (utf8 cs).length ≤ fuel →
    decodeUtf8Fuel fuel (utf8 cs) = some cs
  | [], fuel, _ => by simp [utf8, decodeUtf8Fuel]
  | c :: cs, fuel, h => by
    obtain ⟨b, t, hbt⟩ := utf8Nat_eq_cons c.toNat
    have hread := readUtf8Char_utf8Nat c.toNat (utf8 cs) c.valid
    rw [Char.ofNat_toNat] at hread
    simp only [utf8, hbt, List.cons_append, List.length_cons, List.length_append] at h hread ⊢
    cases fuel with
    | zero => omega
    | succ fuel =>
      have ih := decodeUtf8Fuel_utf8 cs fuel (by omega)
      simp only [decodeUtf8Fuel, hread, ih]

theorem stringOf_utf8 (s : String) : stringOf (utf8 s.data) = some s := by
  have h : decodeUtf8 (utf8 s.data) = some s.data := decodeUtf8Fuel_utf8 s.data _ (Nat.le_refl _)
  simp only [stringOf, h]

/-! ## Fields of the binary format -/

theorem takeBytes_append (b rest : Bytes) : takeBytes b.length (b ++ rest) = some (b, rest) := by
  simp [takeBytes]

theorem readField_lengthDelimited (fieldNumber : Nat) (content rest : Bytes)
    (hpos : 0 < fieldNumber) :
    readField (lengthDelimited fieldNumber content ++ rest) =
      some ((fieldNumber, WireValue.bytes content), rest) := by
  have h1 : (fieldNumber * 8 + 2) / 8 = fieldNumber := by omega
  have h2 : (fieldNumber * 8 + 2) % 8 = 2 := by omega
  have h3 : ¬ (fieldNumber = 0) := by omega
  simp only [readField, lengthDelimited, tag, List.append_assoc, readVarint_varint, h1, h2, h3,
    if_false, takeBytes_append]
  simp

theorem readField_varint (fieldNumber v : Nat) (rest : Bytes) (hpos : 0 < fieldNumber) :
    readField (tag fieldNumber 0 ++ varint v ++ rest) =
      some ((fieldNumber, WireValue.varint v), rest) := by
  have h1 : (fieldNumber * 8 + 0) / 8 = fieldNumber := by omega
  have h2 : (fieldNumber * 8 + 0) % 8 = 0 := by omega
  have h3 : ¬ (fieldNumber = 0) := by omega
  simp only [readField, tag, List.append_assoc, readVarint_varint, h1, h2, h3, if_false,
    if_true]

theorem readFields_mono : ∀ (fuel : Nat) (bs : Bytes) (l : List (Nat × WireValue)),
    readFields fuel bs = some l → ∀ fuel', fuel ≤ fuel' → readFields fuel' bs = some l
  | _, [], l, h, fuel', _ => by
    cases fuel' <;> simpa [readFields] using h
  | 0, b :: bs, l, h, _, _ => by simp [readFields] at h
  | fuel + 1, b :: bs, l, h, fuel', hle => by
    cases fuel' with
    | zero => omega
    | succ fuel' =>
      simp only [readFields] at h ⊢
      cases hf : readField (b :: bs) with
      | none => simp [hf] at h
      | some p =>
        obtain ⟨f, rest⟩ := p
        simp only [hf] at h ⊢
        cases hr : readFields fuel rest with
        | none => simp [hr] at h
        | some fs =>
          simp only [hr] at h
          rw [readFields_mono fuel rest fs hr fuel' (by omega)]
          exact h

/-- One more field in front: when a field is read off the front of the input and the
rest parses, the whole input parses. -/
theorem readFields_cons (bs rest : Bytes) (f : Nat × WireValue) (l : List (Nat × WireValue))
    (hf : readField bs = some (f, rest)) (hlen : rest.length < bs.length)
    (hr : readFields rest.length rest = some l) :
    readFields bs.length bs = some (f :: l) := by
  cases bs with
  | nil => simp at hlen
  | cons b t =>
    simp only [List.length_cons] at hlen ⊢
    simp only [readFields, hf, readFields_mono _ rest l hr t.length (by omega)]

theorem lengthDelimited_length (fieldNumber : Nat) (content rest : Bytes) :
    rest.length < (lengthDelimited fieldNumber content ++ rest).length := by
  have h := varint_length_pos (fieldNumber * 8 + 2)
  simp only [lengthDelimited, tag, List.length_append]
  omega

theorem readFields_lengthDelimited (fieldNumber : Nat) (content rest : Bytes)
    (l : List (Nat × WireValue)) (hpos : 0 < fieldNumber)
    (hr : readFields rest.length rest = some l) :
    readFields (lengthDelimited fieldNumber content ++ rest).length
        (lengthDelimited fieldNumber content ++ rest) =
      some ((fieldNumber, WireValue.bytes content) :: l) :=
  readFields_cons _ rest _ l (readField_lengthDelimited fieldNumber content rest hpos)
    (lengthDelimited_length fieldNumber content rest) hr

theorem readFields_encodeString (fieldNumber : Nat) (s : String) (rest : Bytes)
    (l : List (Nat × WireValue)) (hpos : 0 < fieldNumber)
    (hr : readFields rest.length rest = some l) :
    readFields (encodeString fieldNumber s ++ rest).length (encodeString fieldNumber s ++ rest) =
      some (stringFields fieldNumber s ++ l) := by
  unfold encodeString stringFields
  by_cases h : s = ""
  · simpa [h] using hr
  · simp only [h, if_false, List.singleton_append]
    exact readFields_lengthDelimited fieldNumber _ rest l hpos hr

theorem readFields_encodeBytes (fieldNumber : Nat) (b rest : Bytes)
    (l : List (Nat × WireValue)) (hpos : 0 < fieldNumber)
    (hr : readFields rest.length rest = some l) :
    readFields (encodeBytes fieldNumber b ++ rest).length (encodeBytes fieldNumber b ++ rest) =
      some (bytesFields fieldNumber b ++ l) := by
  unfold encodeBytes bytesFields
  by_cases h : b = []
  · simpa [h] using hr
  · simp only [h, if_false, List.singleton_append]
    exact readFields_lengthDelimited fieldNumber _ rest l hpos hr

theorem readFields_varintField (fieldNumber v : Nat) (rest : Bytes)
    (l : List (Nat × WireValue)) (hpos : 0 < fieldNumber)
    (hr : readFields rest.length rest = some l) :
    readFields (tag fieldNumber 0 ++ varint v ++ rest).length
        (tag fieldNumber 0 ++ varint v ++ rest) =
      some ((fieldNumber, WireValue.varint v) :: l) := by
  refine readFields_cons _ rest _ l (readField_varint fieldNumber v rest hpos) ?_ hr
  have h := varint_length_pos (fieldNumber * 8 + 0)
  simp only [tag, List.length_append]
  omega

theorem readFields_encodeInt64 (fieldNumber : Nat) (n : Int) (rest : Bytes)
    (l : List (Nat × WireValue)) (hpos : 0 < fieldNumber)
    (hr : readFields rest.length rest = some l) :
    readFields (encodeInt64 fieldNumber n ++ rest).length (encodeInt64 fieldNumber n ++ rest) =
      some (int64Fields fieldNumber n ++ l) := by
  unfold encodeInt64 int64Fields
  by_cases h : n = 0
  · simpa [h] using hr
  · simp only [h, if_false, List.singleton_append]
    exact readFields_varintField fieldNumber _ rest l hpos hr

theorem readFields_encodeBool (fieldNumber : Nat) (b : Bool) (rest : Bytes)
    (l : List (Nat × WireValue)) (hpos : 0 < fieldNumber)
    (hr : readFields rest.length rest = some l) :
    readFields (encodeBool fieldNumber b ++ rest).length (encodeBool fieldNumber b ++ rest) =
      some (boolFields fieldNumber b ++ l) := by
  unfold encodeBool boolFields
  cases b with
  | false => simpa using hr
  | true =>
    have h1 : ([1] : Bytes) = varint 1 := by decide
    simp only [if_true, List.singleton_append]
    rw [h1]
    exact readFields_varintField fieldNumber 1 rest l hpos hr

theorem readFields_nil : readFields ([] : Bytes).length [] = some [] := rfl

theorem readFields_encodeAny (fullName : MessageType → String) (a : AnyBox) :
    readFields (encodeAny fullName a).length (encodeAny fullName a) =
      some (stringFields 1 (typeUrl fullName a.typeName) ++ bytesFields 2 a.value) := by
  have h2 := readFields_encodeBytes 2 a.value [] [] (by decide) readFields_nil
  have h1 := readFields_encodeString 1 (typeUrl fullName a.typeName) _ _ (by decide) h2
  simpa [encodeAny] using h1

theorem readFields_encodePreferences (p : Preferences) :
    readFields (encodePreferences p).length (encodePreferences p) =
      some (stringFields 1 p.Language ++ boolFields 2 p.DarkMode) := by
  have h2 := readFields_encodeBool 2 p.DarkMode [] [] (by decide) readFields_nil
  have h1 := readFields_encodeString 1 p.Language _ _ (by decide) h2
  simpa [encodePreferences] using h1

theorem readFields_encodeUser (fullName : MessageType → String) (u : User) :
    readFields (encodeUser fullName u).length (encodeUser fullName u) =
      some (stringFields 1 u.Name ++ (int64Fields 2 u.FavoriteNumber ++
        (stringFields 3 u.FavoriteColor ++ extraFields fullName u.ExtraData))) := by
  have h4 : readFields
      (match u.ExtraData with
        | some a => lengthDelimited 4 (encodeAny fullName a)
        | none => []).length
      (match u.ExtraData with
        | some a => lengthDelimited 4 (encodeAny fullName a)
        | none => []) = some (extraFields fullName u.ExtraData) := by
    cases u.ExtraData with
    | none => rfl
    | some a =>
      have h := readFields_lengthDelimited 4 (encodeAny fullName a) [] [] (by decide)
        readFields_nil
      simpa [extraFields] using h
  have h3 := readFields_encodeString 3 u.FavoriteColor _ _ (by decide) h4
  have h2 := readFields_encodeInt64 2 u.FavoriteNumber _ _ (by decide) h3
  have h1 := readFields_encodeString 1 u.Name _ _ (by decide) h2
  simpa [encodeUser, List.append_assoc] using h1

/-! ## Reading back what was written -/

theorem toInt64_two_complement (n : Int) (hlo : -9223372036854775808 ≤ n)
    (hhi : n < 9223372036854775808) : toInt64 (n % 18446744073709551616).toNat = n := by
  unfold toInt64
  have h1 : 0 ≤ n % 18446744073709551616 := Int.emod_nonneg n (by decide)
  have h2 : n % 18446744073709551616 < 18446744073709551616 := Int.emod_lt_of_pos n (by decide)
  have h3 : (n % 18446744073709551616).toNat % 18446744073709551616 =
      (n % 18446744073709551616).toNat := by
    apply Nat.mod_eq_of_lt
    omega
  rw [h3]
  split <;> omega

theorem typeUrl_injective (fullName : MessageType → String) (s t : MessageType)
    (h : typeUrl fullName s = typeUrl fullName t) : fullName s = fullName t := by
  unfold typeUrl at h
  have hd := congrArg String.data h
  rw [String.data_append, String.data_append] at hd
  exact String.ext (List.append_cancel_left hd)

theorem typeOfUrl_typeUrl (fullName : MessageType → String)
    (hne : fullName MessageType.User ≠ fullName MessageType.Preferences) (t : MessageType) :
    typeOfUrl fullName (typeUrl fullName t) = some t := by
  cases t with
  | User => simp [typeOfUrl]
  | Preferences =>
    have h : typeUrl fullName MessageType.Preferences ≠ typeUrl fullName MessageType.User :=
      fun e => hne (typeUrl_injective fullName _ _ e).symm
    simp [typeOfUrl, h]

theorem typeUrl_ne_empty (fullName : MessageType → String) (t : MessageType) :
    typeUrl fullName t ≠ "" := by
  intro h
  have hd := congrArg String.data h
  unfold typeUrl at hd
  rw [String.data_append] at hd
  simp at hd

theorem applyFields_append {σ : Type} (step : σ → Nat × WireValue → Option σ) :
    ∀ (l₁ l₂ : List (Nat × WireValue)) (s : σ),
      applyFields step s (l₁ ++ l₂) =
        match applyFields step s l₁ with
        | none => none
        | some s' => applyFields step s' l₂
  | [], l₂, s => rfl
  | f :: l₁, l₂, s => by
    simp only [List.cons_append, applyFields]
    cases step s f with
    | none => rfl
    | some s' => exact applyFields_append step l₁ l₂ s'

theorem mergeFields_encodeAny (fullName : MessageType → String) (a : AnyBox) :
    mergeFields anyStep { TypeUrl := "", Value := [] } (encodeAny fullName a) =
      some { TypeUrl := typeUrl fullName a.typeName, Value := a.value } := by
  simp only [mergeFields, readFields_encodeAny, stringFields, typeUrl_ne_empty, if_false,
    bytesFields, List.singleton_append]
  by_cases hv : a.value = []
  · simp [hv, applyFields, anyStep, stringOf_utf8]
  · simp [hv, applyFields, anyStep, stringOf_utf8]

theorem protoDecode_encodePreferences (fullName : MessageType → String) (p : Preferences) :
    protoDecode fullName MessageType.Preferences (encodePreferences p) =
      some (ProtoMessage.preferences p) := by
  obtain ⟨lang, dark⟩ := p
  simp only [protoDecode, mergeFields, readFields_encodePreferences, stringFields, boolFields]
  by_cases hl : lang = "" <;> cases dark <;>
    simp [hl, applyFields, preferencesStep, stringOf_utf8]

theorem applyFields_userName (s : String) (l : List (Nat × WireValue)) :
    applyFields userStep { Name := "", FavoriteNumber := 0, FavoriteColor := "", ExtraData := none }
        (stringFields 1 s ++ l) =
      applyFields userStep
        { Name := s, FavoriteNumber := 0, FavoriteColor := "", ExtraData := none } l := by
  unfold stringFields
  by_cases h : s = ""
  · simp [h]
  · simp [h, applyFields, userStep, stringOf_utf8]

theorem applyFields_userNumber (s : String) (n : Int) (l : List (Nat × WireValue))
    (hlo : -9223372036854775808 ≤ n) (hhi : n < 9223372036854775808) :
    applyFields userStep { Name := s, FavoriteNumber := 0, FavoriteColor := "", ExtraData := none }
        (int64Fields 2 n ++ l) =
      applyFields userStep
        { Name := s, FavoriteNumber := n, FavoriteColor := "", ExtraData := none } l := by
  unfold int64Fields
  by_cases h : n = 0
  · simp [h]
  · simp [h, applyFields, userStep, toInt64_two_complement n hlo hhi]

theorem applyFields_userColor (s c : String) (n : Int) (l : List (Nat × WireValue)) :
    applyFields userStep { Name := s, FavoriteNumber := n, FavoriteColor := "", ExtraData := none }
        (stringFields 3 c ++ l) =
      applyFields userStep
        { Name := s, FavoriteNumber := n, FavoriteColor := c, ExtraData := none } l := by
  unfold stringFields
  by_cases h : c = ""
  · simp [h]
  · simp [h, applyFields, userStep, stringOf_utf8]

theorem applyFields_userExtra (fullName : MessageType → String) (s c : String) (n : Int)
    (extra : Option AnyBox) :
    applyFields userStep { Name := s, FavoriteNumber := n, FavoriteColor := c, ExtraData := none }
        (extraFields fullName extra) =
      some { Name := s, FavoriteNumber := n, FavoriteColor := c,
             ExtraData := extra.map fun a =>
               { TypeUrl := typeUrl fullName a.typeName, Value := a.value } } := by
  cases extra with
  | none => rfl
  | some a => simp [extraFields, applyFields, userStep, mergeFields_encodeAny]

theorem protoDecode_encodeUser (fullName : MessageType → String)
    (hne : fullName MessageType.User ≠ fullName MessageType.Preferences) (u : User)
    (hlo : -9223372036854775808 ≤ u.FavoriteNumber)
    (hhi : u.FavoriteNumber < 9223372036854775808) :
    protoDecode fullName MessageType.User (encodeUser fullName u) =
      some (ProtoMessage.user u) := by
  obtain ⟨name, number, color, extra⟩ := u
  simp only [protoDecode, mergeFields, readFields_encodeUser, applyFields_userName,
    applyFields_userNumber name number _ hlo hhi, applyFields_userColor,
    applyFields_userExtra]
  cases extra with
  | none => rfl
  | some a =>
    obtain ⟨t, v⟩ := a
    simp [toUser, typeOfUrl_typeUrl fullName hne]

/-- The protobuf binary format reads back what it writes, for every message a Go
value can hold. -/
theorem protoDecode_protoEncode (fullName : MessageType → String)
    (hne : fullName MessageType.User ≠ fullName MessageType.Preferences) (m : ProtoMessage)
    (hwf : WellFormed m) :
    protoDecode fullName (messageTypeOf m) (protoEncode fullName m) = some m := by
  cases m with
  | user u => exact protoDecode_encodeUser fullName hne u hwf.1 hwf.2
  | preferences p => exact protoDecode_encodePreferences fullName p

/-! ## Round trip -/

/-- The envelope and the payload together: over a valid schema, `serialize` of a
message returns bytes, and `deserialize` of those bytes returns the message when its
type is registered and `UnregisteredTypeError` when it is not. -/
theorem deserialize_serialize (reg : Registry) (typeRegistry : List MessageType)
    (subject : String) (d : Descriptor) (fullName : MessageType → String) (m : ProtoMessage)
    (hv : ValidSchema reg subject d fullName) (hwf : WellFormed m) :
    ∃ bytes, serialize reg subject m = Except.ok bytes ∧
      deserialize reg typeRegistry subject bytes =
        if messageTypeOf m ∈ typeRegistry then Except.ok m
        else Except.error SerdeError.UnregisteredTypeError := by
  obtain ⟨hcur, hlook, hid, hmulti, henc, hdec, hne, hidx⟩ := hv
  have hser : serialize reg subject m =
      Except.ok (magicByte :: bigEndian32 d.id ++
        (if d.multi then writeIndexes (d.messageIndex (messageTypeOf m)) else []) ++
        d.encode m) := by
    simp only [serialize, hcur]
  refine ⟨_, hser, ?_⟩
  have hround := protoDecode_protoEncode fullName hne m hwf
  simp only [bigEndian32, List.cons_append, List.nil_append, deserialize, magicByte,
    ne_eq, not_true_eq_false, if_false, fromBigEndian32_bigEndian32 d.id hid, hlook, hmulti,
    if_true, List.append_assoc,
    readIndexes_writeIndexes (d.messageIndex (messageTypeOf m)) _ (hidx _).1, decodePayload,
    (hidx _).2, henc, hdec, hround]

theorem deserializeCalls_eq_nil (l : List ConsumerAction)
    (h : ∀ a ∈ l, bodyAction a = false) : deserializeCalls l = [] := by
  induction l with
  | nil => rfl
  | cons a l ih =>
    have ih' := ih (fun b hb => h b (List.mem_cons_of_mem _ hb))
    have ha := h a (List.mem_cons_self _ _)
    cases a <;> first
      | simpa [deserializeCalls] using ih'
      | simp [bodyAction] at ha

theorem producerMain_produce (env : Env) (order : List (String × String)) (w : ProducerWorld)
    (topic : String) (payload : Bytes) (headers : List Header)
    (h : ProducerAction.produce topic payload headers ∈ producerMain env order w) :
    ∃ extra, anyNew w.marshal producerPrefs = some extra ∧ topic = Getenv env "TOPIC_NAME" ∧
      w.serialize topic (producerUser extra) = some payload ∧ headers = producerHeaders ∧
      ProducerAction.serialize topic (producerUser extra) ∈ producerMain env order w := by
  have h' := h
  unfold producerMain at h ⊢
  cases hv : validate order with
  | some key => simp [hv] at h
  | none =>
    cases h1 : w.newProducerErr
    case true => simp [hv, h1] at h
    cases h2 : w.newClientErr
    case true => simp [hv, h1, h2] at h
    cases h3 : w.newSerializerErr
    case true => simp [hv, h1, h2, h3] at h
    cases h4 : anyNew w.marshal producerPrefs with
    | none => simp [hv, h1, h2, h3, h4] at h
    | some extra =>
      refine ⟨extra, rfl, ?_⟩
      cases h5 : w.serialize (producerReadEnv env).topic (producerUser extra) with
      | none => simp [hv, h1, h2, h3, h4, h5] at h
      | some bytes =>
        have hcore : topic = (producerReadEnv env).topic ∧ payload = bytes ∧
            headers = producerHeaders := by
          cases h6 : w.produceErr
          · cases h7 : w.deliveryErr <;> simpa [hv, h1, h2, h3, h4, h5, h6, h7] using h
          · simpa [hv, h1, h2, h3, h4, h5, h6] using h
        obtain ⟨rfl, rfl, rfl⟩ := hcore
        refine ⟨rfl, h5, rfl, ?_⟩
        simp [hv, h1, h2, h3, h4, h5]

theorem consumerLoop_one_message {κ : Type} (w : ConsumerWorld κ) (registry : List MessageType)
    (e : Message) :
    consumerLoop w registry [Tick.poll (some (Event.message e))] =
      ConsumerAction.poll :: (handleMessage w registry w.initState e).1 := by
  simp [consumerLoop, runLoop, loopBody]

theorem exampleValidSchema :
    ValidSchema exampleRegistry (Getenv producerEnvOk "TOPIC_NAME") exampleDescriptor
      exampleFullName := by
  have ht : Getenv producerEnvOk "TOPIC_NAME" = "users" := by decide
  rw [ht]
  refine ⟨?_, ?_, ?_, rfl, rfl, rfl, by decide, ?_⟩
  · simp [exampleRegistry]
  · simp [exampleRegistry, exampleDescriptor]
  · simp [exampleDescriptor]
  · intro t
    cases t <;> simp [exampleDescriptor]

/-- C1. Over every valid schema for the producer's topic, with `Serialize` and
`Deserialize` the serializer and deserializer of the registry layer: every message is
serialised to bytes which a deserializer holding the message's type in its registry
turns back into a message equal to it (and which it refuses with
`UnregisteredTypeError` otherwise); in particular every `User` message, the type of
the values the producer hands to `Serialize`, comes back from the deserializer of the
consumer, whose registry holds `User`; and whenever the producer produces a payload,
that payload is the serialisation of the `User` message it built (`First user`, 42,
`blue`, `ExtraData` boxing the `Preferences`), and a consumer that receives it on the
same topic and gets as far as calling `Deserialize` prints exactly that message. -/
theorem round_trip_across_programs {κ : Type} (reg : Registry) (d : Descriptor)
    (fullName : MessageType → String) (penv : Env) (porder : List (String × String))
    (pw : ProducerWorld) (env : Env) (order : List (String × String)) (w : ConsumerWorld κ)
    (hv : ValidSchema reg (Getenv penv "TOPIC_NAME") d fullName)
    (hser : ∀ topic u, pw.serialize topic u =
      serializeAnswer (serialize reg topic (ProtoMessage.user u)))
    (hde : ∀ typeRegistry k topic bytes, (w.deserialize typeRegistry k topic bytes).1 =
      deserializeAnswer (deserialize reg typeRegistry topic bytes)) :
    (∀ (typeRegistry : List MessageType) (m : ProtoMessage), WellFormed m →
      ∃ bytes, serialize reg (Getenv penv "TOPIC_NAME") m = Except.ok bytes ∧
        deserialize reg typeRegistry (Getenv penv "TOPIC_NAME") bytes =
          if messageTypeOf m ∈ typeRegistry then Except.ok m
          else Except.error SerdeError.UnregisteredTypeError) ∧
    (∀ u : User, WellFormed (ProtoMessage.user u) →
      ∃ bytes, serialize reg (Getenv penv "TOPIC_NAME") (ProtoMessage.user u) = Except.ok bytes ∧
        deserialize reg (RegisterMessage [] MessageType.User) (Getenv penv "TOPIC_NAME") bytes =
          Except.ok (ProtoMessage.user u)) ∧
    (∀ topic payload headers,
      ProducerAction.produce topic payload headers ∈ producerMain penv porder pw →
      ∃ extra, anyNew pw.marshal producerPrefs = some extra ∧
        ProducerAction.serialize topic (producerUser extra) ∈ producerMain penv porder pw ∧
        serialize reg topic (ProtoMessage.user (producerUser extra)) = Except.ok payload ∧
        ∀ e : Message, e.TopicPartition.Topic = topic → e.Value = payload →
          deserializeCalls
              (consumerMain env order w [Tick.poll (some (Event.message e))]) = [] ∨
          consumerMain env order w [Tick.poll (some (Event.message e))] =
            consumerSetup env ++
              (ConsumerAction.poll :: ConsumerAction.deserialize topic payload ::
                ConsumerAction.printMessage e.TopicPartition
                  (some (ProtoMessage.user (producerUser extra))) :: headerOutput e)) := by
  have hall : ∀ (typeRegistry : List MessageType) (m : ProtoMessage), WellFormed m →
      ∃ bytes, serialize reg (Getenv penv "TOPIC_NAME") m = Except.ok bytes ∧
        deserialize reg typeRegistry (Getenv penv "TOPIC_NAME") bytes =
          if messageTypeOf m ∈ typeRegistry then Except.ok m
          else Except.error SerdeError.UnregisteredTypeError :=
    fun typeRegistry m hwf => deserialize_serialize reg typeRegistry
      (Getenv penv "TOPIC_NAME") d fullName m hv hwf
  have hgen : ∀ u : User, WellFormed (ProtoMessage.user u) →
      ∃ bytes, serialize reg (Getenv penv "TOPIC_NAME") (ProtoMessage.user u) = Except.ok bytes ∧
        deserialize reg (RegisterMessage [] MessageType.User) (Getenv penv "TOPIC_NAME") bytes =
          Except.ok (ProtoMessage.user u) :=
    fun u hwf => by
      obtain ⟨bytes, h1, h2⟩ :=
        hall (RegisterMessage [] MessageType.User) (ProtoMessage.user u) hwf
      refine ⟨bytes, h1, ?_⟩
      rw [h2]
      simp [RegisterMessage, messageTypeOf]
  refine ⟨hall, hgen, ?_⟩
  intro topic payload headers hprod
  obtain ⟨extra, hextra, htopic, hpay, _, hmem⟩ :=
    producerMain_produce penv porder pw topic payload headers hprod
  subst htopic
  have hwf : WellFormed (ProtoMessage.user (producerUser extra)) := by
    simp only [WellFormed, producerUser]
    omega
  obtain ⟨bytes, h1, h2⟩ := hgen (producerUser extra) hwf
  have hbytes : bytes = payload := by
    have h3 := hpay
    rw [hser, h1] at h3
    simpa [serializeAnswer] using h3
  subst hbytes
  refine ⟨extra, hextra, hmem, h1, ?_⟩
  intro e ht hval
  rcases consumerMain_shape env order w [Tick.poll (some (Event.message e))] with
    hshort | ⟨_, hfull⟩
  · left
    exact deserializeCalls_eq_nil _ (fun a ha => (hshort a ha).1)
  · right
    rw [hfull, consumerLoop_one_message, handleMessage_fst, hde, ht, hval, h2]
    rfl

/-- The producer and the consumer over the example registry: the schema is valid, the
producer produces the bytes of its message, and the consumer that receives them prints
the message. -/
theorem round_trip_across_programs_witness :
    ValidSchema exampleRegistry (Getenv producerEnvOk "TOPIC_NAME") exampleDescriptor
      exampleFullName ∧
    ProducerAction.produce "users" exampleBytes producerHeaders ∈
      producerMain producerEnvOk (producerRequired (producerReadEnv producerEnvOk))
        (serdeProducerWorld exampleRegistry) ∧
    consumerMain consumerEnvOk (consumerRequired (consumerReadEnv consumerEnvOk))
        (serdeConsumerWorld exampleRegistry)
        [Tick.poll (some (Event.message exampleDelivered))] =
      consumerSetup consumerEnvOk ++
        [ConsumerAction.poll, ConsumerAction.deserialize "users" exampleBytes,
         ConsumerAction.printMessage exampleDelivered.TopicPartition (some exampleUser),
         ConsumerAction.printHeaders producerHeaders] ∧
    (∃ bytes, serialize exampleRegistry (Getenv producerEnvOk "TOPIC_NAME") exampleUser =
        Except.ok bytes ∧
      deserialize exampleRegistry (RegisterMessage [] MessageType.User)
        (Getenv producerEnvOk "TOPIC_NAME") bytes = Except.ok exampleUser) :=
  ⟨exampleValidSchema, by decide, by decide,
    (round_trip_across_programs exampleRegistry exampleDescriptor exampleFullName producerEnvOk
      (producerRequired (producerReadEnv producerEnvOk)) (serdeProducerWorld exampleRegistry)
      consumerEnvOk (consumerRequired (consumerReadEnv consumerEnvOk))
      (serdeConsumerWorld exampleRegistry) exampleValidSchema (fun _ _ => rfl)
      (fun _ _ _ _ => rfl)).2.1 (producerUser exampleBox) ⟨by decide, by decide⟩⟩

end KafkaProto
